import Mathlib

/-!
# Successive parabolic interpolation

A shallow embedding of `interpolation.go`.

Number model.  The program computes with `float64`.  Here the finite numbers
range over a linear order `α` (a linearly ordered field where the code does
arithmetic), and every arithmetic operation of the code is the exact operation
followed by a rounding `rnd : α → α`, a parameter of the embedding:

* `rnd = id` is exact arithmetic;
* `rnd = round64` on `ℚ` is the rounding of `float64` (round to nearest, ties
  to even, 53 significant bits) with an unbounded exponent range: overflow and
  underflow are not modelled.

A value that may fail to be finite is an `Option α`:

* a y-slot holds `some y` (an evaluated sample) or `none`, the `math.NaN()`
  sentinel written by `squeeze`;
* the result of `interpolate` is `some v` (finite) or `none` (not finite: a
  division by zero, which gives an infinity or NaN, or a NaN operand, which
  makes every later result NaN).

The two pointers returned by `squeeze` always address the x and the y field of
one and the same sample of `w`; they are modelled by the `Slot` naming it.
-/

namespace SPI

/-- The `knownSet` struct: three samples. -/
structure knownSet (α : Type) where
  x1 : α
  y1 : Option α
  x2 : α
  y2 : Option α
  x3 : α
  y3 : Option α
deriving DecidableEq, Repr

/-- Which sample of a `knownSet` a pointer pair `(&w.xi, &w.yi)` addresses. -/
inductive Slot where
  | s1
  | s2
  | s3
deriving DecidableEq, Repr

/-- The value of `math.NaN()`. -/
def nan {α : Type} : Option α := none

/-- Reading through the x pointer: `*xp`. -/
def getX {α : Type} (w : knownSet α) : Slot → α
  | Slot.s1 => w.x1
  | Slot.s2 => w.x2
  | Slot.s3 => w.x3

/-- Reading through the y pointer: `*yp`. -/
def getY {α : Type} (w : knownSet α) : Slot → Option α
  | Slot.s1 => w.y1
  | Slot.s2 => w.y2
  | Slot.s3 => w.y3

/-- Writing through the y pointer: `*yp = v`. -/
def setY {α : Type} (w : knownSet α) (s : Slot) (v : Option α) : knownSet α :=
  match s with
  | Slot.s1 => { w with y1 := v }
  | Slot.s2 => { w with y2 := v }
  | Slot.s3 => { w with y3 := v }

/-- The function `squeeze`: the mutated `w` and the slot the returned pointers address. -/
def squeeze {α : Type} [LinearOrder α] (w : knownSet α) (x : α) : knownSet α × Slot :=
  if x ≤ w.x1 then
    ({ x1 := x, x2 := w.x1, x3 := w.x2, y1 := nan, y2 := w.y1, y3 := w.y2 }, Slot.s1)
  else if x ≤ w.x2 then
    ({ w with x2 := x, x3 := w.x2, y2 := nan, y3 := w.y2 }, Slot.s2)
  else if x ≤ w.x3 then
    ({ w with x1 := w.x2, x2 := x, y1 := w.y2, y2 := nan }, Slot.s2)
  else
    ({ x1 := w.x2, x2 := w.x3, x3 := x, y1 := w.y2, y2 := w.y3, y3 := nan }, Slot.s3)

/-- The function `ord3`, with its three conditional parallel assignments. -/
def ord3 {α : Type} [LinearOrder α] (x y z : α) : α × α × α :=
  let (x, y) := if x > y then (y, z) else (x, y)
  let (y, z) := if y > z then (z, y) else (y, z)
  let (x, y) := if x > y then (y, z) else (x, y)
  (x, y, z)

/-- The precondition of `squeeze` and the invariant of the driver: `w.x1 <= w.x2 <= w.x3`. -/
def sorted {α : Type} [LinearOrder α] (w : knownSet α) : Prop :=
  w.x1 ≤ w.x2 ∧ w.x2 ≤ w.x3

instance {α : Type} [LinearOrder α] (w : knownSet α) : Decidable (sorted w) := by
  unfold sorted; infer_instance

/-- The three abscissas of a triple, in slot order. -/
def abscissas {α : Type} (w : knownSet α) : α × α × α := (w.x1, w.x2, w.x3)

/-- The three y-values of a triple, in slot order. -/
def ordinates {α : Type} (w : knownSet α) : Option α × Option α × Option α :=
  (w.y1, w.y2, w.y3)

/-- All three y-values are evaluated: none of them is the sentinel. -/
def evaluated {α : Type} (w : knownSet α) : Prop :=
  w.y1.isSome = true ∧ w.y2.isSome = true ∧ w.y3.isSome = true

instance {α : Type} (w : knownSet α) : Decidable (evaluated w) := by
  unfold evaluated; infer_instance

/-- Squeezing the candidates of a list in, one after the other. -/
def squeezeAll {α : Type} [LinearOrder α] (w : knownSet α) (xs : List α) : knownSet α :=
  xs.foldl (fun v x => (squeeze v x).1) w

/-! ## Arithmetic on possibly non-finite values -/

/-- Float subtraction: a NaN operand gives NaN. -/
def fsub {α : Type} [Sub α] (rnd : α → α) : Option α → Option α → Option α
  | some a, some b => some (rnd (a - b))
  | _, _ => none

/-- Float addition: a NaN operand gives NaN. -/
def fadd {α : Type} [Add α] (rnd : α → α) : Option α → Option α → Option α
  | some a, some b => some (rnd (a + b))
  | _, _ => none

/-- Float multiplication: a NaN operand gives NaN. -/
def fmul {α : Type} [Mul α] (rnd : α → α) : Option α → Option α → Option α
  | some a, some b => some (rnd (a * b))
  | _, _ => none

/-- Float division: a NaN operand gives NaN, and a zero divisor gives an infinity or NaN,
neither of them finite. -/
def fdiv {α : Type} [Div α] [Zero α] [DecidableEq α] (rnd : α → α) :
    Option α → Option α → Option α
  | some a, some b => if b = 0 then none else some (rnd (a / b))
  | _, _ => none

/-- The divisor `z1 + z2 + z3` of `interpolate`. -/
def denominator {α : Type} [Add α] [Sub α] [Mul α] (rnd : α → α) (w : knownSet α) :
    Option α :=
  let z1 := fmul rnd (some w.x1) (fsub rnd w.y2 w.y3)
  let z2 := fmul rnd (some w.x2) (fsub rnd w.y3 w.y1)
  let z3 := fmul rnd (some w.x3) (fsub rnd w.y1 w.y2)
  fadd rnd (fadd rnd z1 z2) z3

/-- The function `interpolate`; the constant `0.5` is the half `1 / 2`. -/
def interpolate {α : Type} [LinearOrderedField α] (rnd : α → α) (w : knownSet α) :
    Option α :=
  let z1 := fmul rnd (some w.x1) (fsub rnd w.y2 w.y3)
  let z2 := fmul rnd (some w.x2) (fsub rnd w.y3 w.y1)
  let z3 := fmul rnd (some w.x3) (fsub rnd w.y1 w.y2)
  fdiv rnd
    (fmul rnd (some (1 / 2))
      (fadd rnd (fadd rnd (fmul rnd (some w.x1) z1) (fmul rnd (some w.x2) z2))
        (fmul rnd (some w.x3) z3)))
    (fadd rnd (fadd rnd z1 z2) z3)

/-- The function `isfinite`: neither an infinity nor NaN. -/
def isfinite {α : Type} (x : Option α) : Bool := x.isSome

/-- The function `iterativelyInterpolate`: the value stored in `*z` and the returned flag. -/
def iterativelyInterpolate {α : Type} [LinearOrderedField α] (rnd : α → α)
    (w : knownSet α) : Option α × Bool :=
  let z := interpolate rnd w
  (z, isfinite z)

/-! ## The driver -/

/-- One table row written by `PrintApproximation`: the index and the three abscissas. -/
structure Row (α : Type) where
  i : Nat
  x1 : α
  x2 : α
  x3 : α
deriving DecidableEq, Repr

/-- The state of a run of `PrintApproximation`: the triple, the rows written so far
(after the header line) and the arguments `fn` has been called with so far. -/
structure Run (α : Type) where
  w : knownSet α
  out : List (Row α)
  calls : List α
deriving DecidableEq, Repr

/-- The row `Fprintf` writes for index `i` and the current triple. -/
def rowOf {α : Type} (i : Nat) (w : knownSet α) : Row α :=
  { i := i, x1 := w.x1, x2 := w.x2, x3 := w.x3 }

/-- The loop body of `PrintApproximation` for index `i` and the finite vertex `z`. -/
def body {α : Type} [LinearOrder α] (fn : α → α) (i : Nat) (z : α) (s : Run α) : Run α :=
  let (w, p) := squeeze s.w z
  let x := getX w p
  let w := setY w p (some (fn x))
  { w := w, out := s.out ++ [rowOf i w], calls := s.calls ++ [x] }

/-- The loop `for i := 1; i <= 100 && iterativelyInterpolate(&w, &z); i++` from index `i`
on; `fuel` bounds the number of times the condition is tested. -/
def loop {α : Type} [LinearOrderedField α] (rnd : α → α) (fn : α → α) :
    Nat → Nat → Run α → Run α
  | 0, _, s => s
  | fuel + 1, i, s =>
    if i ≤ 100 then
      match iterativelyInterpolate rnd s.w with
      | (some z, true) => loop rnd fn fuel (i + 1) (body fn i z s)
      | _ => s
    else s

/-- The struct literal of `PrintApproximation`: the three abscissas with `fn` evaluated at
each of them. -/
def sample {α : Type} (fn : α → α) (x1 x2 x3 : α) : knownSet α :=
  { x1 := x1, y1 := some (fn x1), x2 := x2, y2 := some (fn x2), x3 := x3, y3 := some (fn x3) }

/-- The state of `PrintApproximation` when the loop is entered: the abscissas ordered by
`ord3`, the three evaluations of `fn` and the row of index 0. -/
def initRun {α : Type} [LinearOrder α] (fn : α → α) (x1 x2 x3 : α) : Run α :=
  let (x1, x2, x3) := ord3 x1 x2 x3
  let w := sample fn x1 x2 x3
  { w := w, out := [rowOf 0 w], calls := [x1, x2, x3] }

/-- The function `PrintApproximation`.  The condition of the loop is tested at most 101
times (for `i = 1, ..., 101`), so the fuel 101 is never used up. -/
def PrintApproximation {α : Type} [LinearOrderedField α] (rnd : α → α) (fn : α → α)
    (x1 x2 x3 : α) : Run α :=
  loop rnd fn 101 1 (initRun fn x1 x2 x3)

/-! ## The rounding of `float64` -/

/-- The number of binary digits of `n`, by repeated halving; `fuel` bounds the number of
halvings. -/
def bitsAux : Nat → Nat → Nat
  | 0, _ => 0
  | fuel + 1, n => if n = 0 then 0 else bitsAux fuel (n / 2) + 1

/-- The number of binary digits of `n`. -/
def bits (n : Nat) : Nat := bitsAux n n

/-- The exponent of the leading bit of a non-zero rational: the `e` with
`2^e ≤ |q| < 2^(e+1)`.  It is the difference of the digit counts of numerator and
denominator, or one less. -/
def ilog2 (q : ℚ) : Int :=
  let k : Int := (bits q.num.natAbs : Int) - (bits q.den : Int)
  if (2 : ℚ) ^ k ≤ |q| then k else k - 1

/-- The integer nearest to a rational, a tie going to the even one. -/
def roundEven (q : ℚ) : Int :=
  let f := ⌊q⌋
  let r := q - f
  if r < 1 / 2 then f else if 1 / 2 < r then f + 1 else if f % 2 = 0 then f else f + 1

/-- The `float64` nearest to a rational (ties to even), for an unbounded exponent range:
the number is scaled so that its significand lies in `[2^52, 2^53)`, rounded to an integer
and scaled back. -/
def round64 (q : ℚ) : ℚ :=
  if q = 0 then 0
  else
    let s := (2 : ℚ) ^ (ilog2 q - 52)
    (roundEven (q / s) : ℚ) * s

/-- The quadratic test function `p*x^2 + q*x + r`. -/
def quadratic {α : Type} [Add α] [Mul α] (p q r : α) (x : α) : α := p * (x * x) + q * x + r

/-- The affine test function `m*x + c`. -/
def affine {α : Type} [Add α] [Mul α] (m c : α) (x : α) : α := m * x + c

/-- A concrete triple: the abscissas `0, 1, 4` with the values of `x^2`. -/
def w014 : knownSet Int := { x1 := 0, y1 := some 0, x2 := 1, y2 := some 1, x3 := 4, y3 := some 16 }

/-! ## The protocol of the driver on triples -/

/-- Lines 103 and 104 of the loop body on the triple alone: the vertex `z` is squeezed in
and `fn` at the reported abscissa is stored in the reported slot. -/
def refit {α : Type} [LinearOrder α] (fn : α → α) (w : knownSet α) (z : α) : knownSet α :=
  let (v, p) := squeeze w z
  setY v p (some (fn (getX v p)))

/-- The iteration protocol in the words of the specification, on triples alone: with `n`
iterations left and the current triple `w`, ask for the vertex; stop if it is not finite;
otherwise fold it into the triple, evaluate, emit the updated triple and go on.  The result
lists, for each completed iteration, its vertex and the triple it emits. -/
def protocol {α : Type} [LinearOrderedField α] (rnd : α → α) (fn : α → α) :
    Nat → knownSet α → List (α × knownSet α)
  | 0, _ => []
  | n + 1, w =>
    match interpolate rnd w with
    | none => []
    | some z => (z, refit fn w z) :: protocol rnd fn n (refit fn w z)

/-- The triple held after the iterations listed in `l`, starting from `w`. -/
def lastTriple {α : Type} : knownSet α → List (α × knownSet α) → knownSet α
  | w, [] => w
  | _, (_, v) :: l => lastTriple v l

/-- The rows of the emitted triples of `l`, numbered from `i` on. -/
def rowsFrom {α : Type} : Nat → List (α × knownSet α) → List (Row α)
  | _, [] => []
  | i, (_, v) :: l => rowOf i v :: rowsFrom (i + 1) l

/-- The triple held after the first `k` iterations of the protocol from `w` (after fewer,
if the protocol stops earlier). -/
def tripleAfter {α : Type} [LinearOrderedField α] (rnd : α → α) (fn : α → α) (k : Nat)
    (w : knownSet α) : knownSet α :=
  lastTriple w (protocol rnd fn k w)

/-- Each y-value of the triple is `fn` at its abscissa. -/
def sampled {α : Type} (fn : α → α) (w : knownSet α) : Prop :=
  w.y1 = some (fn w.x1) ∧ w.y2 = some (fn w.x2) ∧ w.y3 = some (fn w.x3)

/-- A function on which no run from `0, 1, 2` meets a non-finite vertex in exact
arithmetic: `(3/5)^n` on `[n, n+1)`.  The vertex of the triple at `n, n+1, n+2` is `n+3`. -/
def geo (x : ℚ) : ℚ := (3 / 5) ^ ⌊x⌋.toNat

/-- The triple with `g` applied to each evaluated y-value. -/
def mapY {α : Type} (g : α → α) (w : knownSet α) : knownSet α :=
  { w with y1 := w.y1.map g, y2 := w.y2.map g, y3 := w.y3.map g }

/-- The triple of three points with finite coordinates. -/
def points {α : Type} (x1 y1 x2 y2 x3 y3 : α) : knownSet α :=
  { x1 := x1, y1 := some y1, x2 := x2, y2 := some y2, x3 := x3, y3 := some y3 }

/-- The two samples of a triple in the slots other than `p`, in slot order. -/
def others {α : Type} (w : knownSet α) : Slot → List (α × Option α)
  | Slot.s1 => [(w.x2, w.y2), (w.x3, w.y3)]
  | Slot.s2 => [(w.x1, w.y1), (w.x3, w.y3)]
  | Slot.s3 => [(w.x1, w.y1), (w.x2, w.y2)]

/-! ## Auxiliary lemmas -/

theorem denominator_evaluated {α : Type} [LinearOrderedField α] (x1 x2 x3 y1 y2 y3 : α) :
    denominator id ({ x1 := x1, y1 := some y1, x2 := x2, y2 := some y2, x3 := x3, y3 := some y3 } :
      knownSet α) = some (x1 * (y2 - y3) + x2 * (y3 - y1) + x3 * (y1 - y2)) := rfl

theorem interpolate_evaluated {α : Type} [LinearOrderedField α] (x1 x2 x3 y1 y2 y3 : α) :
    interpolate id ({ x1 := x1, y1 := some y1, x2 := x2, y2 := some y2, x3 := x3, y3 := some y3 } :
      knownSet α) =
    if x1 * (y2 - y3) + x2 * (y3 - y1) + x3 * (y1 - y2) = 0 then none
    else some (1 / 2 * (x1 * (x1 * (y2 - y3)) + x2 * (x2 * (y3 - y1)) + x3 * (x3 * (y1 - y2))) /
      (x1 * (y2 - y3) + x2 * (y3 - y1) + x3 * (y1 - y2))) := rfl

theorem interpolate_eq_none_iff {α : Type} [LinearOrderedField α] (w : knownSet α) :
    interpolate id w = none ↔ ∀ d, denominator id w = some d → d = 0 := by
  obtain ⟨x1, y1, x2, y2, x3, y3⟩ := w
  cases y1 <;> cases y2 <;> cases y3 <;>
    simp [interpolate, denominator, fmul, fsub, fadd, fdiv]

theorem quadratic_denominator {α : Type} [LinearOrderedField α] (p q r x1 x2 x3 : α) :
    x1 * (quadratic p q r x2 - quadratic p q r x3) + x2 * (quadratic p q r x3 - quadratic p q r x1)
      + x3 * (quadratic p q r x1 - quadratic p q r x2)
      = p * ((x1 - x2) * (x2 - x3) * (x3 - x1)) := by
  unfold quadratic; ring

theorem quadratic_numerator {α : Type} [LinearOrderedField α] (p q r x1 x2 x3 : α) :
    x1 * (x1 * (quadratic p q r x2 - quadratic p q r x3))
      + x2 * (x2 * (quadratic p q r x3 - quadratic p q r x1))
      + x3 * (x3 * (quadratic p q r x1 - quadratic p q r x2))
      = -q * ((x1 - x2) * (x2 - x3) * (x3 - x1)) := by
  unfold quadratic; ring

theorem interpolate_sample_quadratic {α : Type} [LinearOrderedField α] (p q r x1 x2 x3 : α)
    (hp : p ≠ 0) (h12 : x1 ≠ x2) (h13 : x1 ≠ x3) (h23 : x2 ≠ x3) :
    interpolate id (sample (quadratic p q r) x1 x2 x3) = some (-q / (2 * p)) := by
  have hv : (x1 - x2) * (x2 - x3) * (x3 - x1) ≠ 0 :=
    mul_ne_zero (mul_ne_zero (sub_ne_zero.mpr h12) (sub_ne_zero.mpr h23))
      (sub_ne_zero.mpr (Ne.symm h13))
  unfold sample
  rw [interpolate_evaluated, quadratic_denominator, quadratic_numerator,
    if_neg (mul_ne_zero hp hv)]
  congr 1
  field_simp
  ring


theorem squeeze_fst_sorted {α : Type} [LinearOrder α] (w : knownSet α) (x : α)
    (h : sorted w) : sorted (squeeze w x).1 := by
  obtain ⟨h12, h23⟩ := h
  unfold squeeze sorted
  split_ifs with a b c
  · exact ⟨a, h12⟩
  · exact ⟨le_of_lt (not_le.mp a), b⟩
  · exact ⟨le_of_lt (not_le.mp b), c⟩
  · exact ⟨h23, le_of_lt (not_le.mp c)⟩

theorem squeezeAll_sorted {α : Type} [LinearOrder α] (xs : List α) :
    ∀ w : knownSet α, sorted w → sorted (squeezeAll w xs) := by
  induction xs with
  | nil => intro w h; exact h
  | cons x xs ih =>
    intro w h
    exact ih _ (squeeze_fst_sorted w x h)

theorem interpolate_sample_quadratic_cases {α : Type} [LinearOrderedField α]
    (p q r x1 x2 x3 : α) (hp : p ≠ 0) :
    interpolate id (sample (quadratic p q r) x1 x2 x3) =
      if x1 = x2 ∨ x1 = x3 ∨ x2 = x3 then none else some (-q / (2 * p)) := by
  split_ifs with h
  · have hv : (x1 - x2) * (x2 - x3) * (x3 - x1) = 0 := by
      rcases h with h | h | h <;> subst h <;> ring
    unfold sample
    rw [interpolate_evaluated, quadratic_denominator, hv, mul_zero, if_pos rfl]
  · rw [not_or, not_or] at h
    exact interpolate_sample_quadratic p q r x1 x2 x3 hp h.1 h.2.1 h.2.2

theorem body_w {α : Type} [LinearOrder α] (fn : α → α) (i : Nat) (z : α) (s : Run α) :
    (body fn i z s).w =
      if z ≤ s.w.x1 then
        { x1 := z, y1 := some (fn z), x2 := s.w.x1, y2 := s.w.y1, x3 := s.w.x2, y3 := s.w.y2 }
      else if z ≤ s.w.x2 then
        { x1 := s.w.x1, y1 := s.w.y1, x2 := z, y2 := some (fn z), x3 := s.w.x2, y3 := s.w.y2 }
      else if z ≤ s.w.x3 then
        { x1 := s.w.x2, y1 := s.w.y2, x2 := z, y2 := some (fn z), x3 := s.w.x3, y3 := s.w.y3 }
      else
        { x1 := s.w.x2, y1 := s.w.y2, x2 := s.w.x3, y2 := s.w.y3, x3 := z, y3 := some (fn z) } := by
  unfold body squeeze
  split_ifs <;> rfl

theorem body_w_sample {α : Type} [LinearOrder α] (fn : α → α) (i : Nat) (z x1 x2 x3 : α)
    (out : List (Row α)) (calls : List α) :
    (body fn i z { w := sample fn x1 x2 x3, out := out, calls := calls }).w =
      if z ≤ x1 then sample fn z x1 x2
      else if z ≤ x2 then sample fn x1 z x2
      else if z ≤ x3 then sample fn x2 z x3
      else sample fn x2 x3 z := by
  rw [body_w]
  rfl

theorem affine_denominator {α : Type} [LinearOrderedField α] (m c x1 x2 x3 : α) :
    x1 * (affine m c x2 - affine m c x3) + x2 * (affine m c x3 - affine m c x1)
      + x3 * (affine m c x1 - affine m c x2) = 0 := by
  unfold affine; ring

theorem interpolate_sample_affine {α : Type} [LinearOrderedField α] (m c x1 x2 x3 : α) :
    interpolate id (sample (affine m c) x1 x2 x3) = none := by
  unfold sample
  rw [interpolate_evaluated, affine_denominator, if_pos rfl]

theorem loop_stop {α : Type} [LinearOrderedField α] (rnd : α → α) (fn : α → α)
    (fuel i : Nat) (s : Run α) (h : interpolate rnd s.w = none) : loop rnd fn fuel i s = s := by
  cases fuel with
  | zero => rfl
  | succ n => simp [loop, iterativelyInterpolate, h]

theorem body_out {α : Type} [LinearOrder α] (fn : α → α) (i : Nat) (z : α) (s : Run α) :
    (body fn i z s).out = s.out ++ [rowOf i (body fn i z s).w] := rfl

theorem loop_out_prefix {α : Type} [LinearOrderedField α] (rnd : α → α) (fn : α → α)
    (fuel : Nat) : ∀ (i : Nat) (s : Run α), ∃ l, (loop rnd fn fuel i s).out = s.out ++ l := by
  induction fuel with
  | zero => intro i s; exact ⟨[], by simp [loop]⟩
  | succ n ih =>
    intro i s
    unfold loop
    split_ifs with hi
    · split
      · next z hz =>
        obtain ⟨l, hl⟩ := ih (i + 1) (body fn i z s)
        exact ⟨rowOf i (body fn i z s).w :: l, by rw [hl, body_out]; simp⟩
      · exact ⟨[], by simp⟩
    · exact ⟨[], by simp⟩

theorem ord3_of_sorted {α : Type} [LinearOrder α] (x y z : α) (hxy : x ≤ y) (hyz : y ≤ z) :
    ord3 x y z = (x, y, z) := by
  unfold ord3
  simp only [gt_iff_lt, not_lt.mpr hxy, not_lt.mpr hyz, if_false]

theorem round64_tenth : round64 (1 / 10) = 3602879701896397 / 2 ^ 55 := by decide!

theorem round64_fifth : round64 (2 / 10) = 3602879701896397 / 2 ^ 54 := by decide!

theorem round64_three_tenths : round64 (3 / 10) = 5404319552844595 / 2 ^ 54 := by decide!

theorem round64_tie_even : round64 (2 ^ 53 + 1) = 2 ^ 53 ∧ round64 (2 ^ 53 + 3) = 2 ^ 53 + 4 := by
  decide!

theorem squeeze_getX {α : Type} [LinearOrder α] (w : knownSet α) (z : α) :
    getX (squeeze w z).1 (squeeze w z).2 = z := by
  unfold squeeze
  split_ifs <;> rfl

theorem body_w_refit {α : Type} [LinearOrder α] (fn : α → α) (i : Nat) (z : α) (s : Run α) :
    (body fn i z s).w = refit fn s.w z := rfl

theorem body_calls {α : Type} [LinearOrder α] (fn : α → α) (i : Nat) (z : α) (s : Run α) :
    (body fn i z s).calls = s.calls ++ [z] := by
  have h : (body fn i z s).calls = s.calls ++ [getX (squeeze s.w z).1 (squeeze s.w z).2] := rfl
  rw [h, squeeze_getX]

theorem loop_succ_some {α : Type} [LinearOrderedField α] (rnd : α → α) (fn : α → α)
    (fuel i : Nat) (s : Run α) (z : α) (hi : i ≤ 100) (hz : interpolate rnd s.w = some z) :
    loop rnd fn (fuel + 1) i s = loop rnd fn fuel (i + 1) (body fn i z s) := by
  simp [loop, iterativelyInterpolate, hi, hz, isfinite]

theorem loop_past_cap {α : Type} [LinearOrderedField α] (rnd : α → α) (fn : α → α)
    (fuel i : Nat) (s : Run α) (hi : 100 < i) : loop rnd fn fuel i s = s := by
  cases fuel with
  | zero => rfl
  | succ n => simp [loop, not_le.mpr hi]

/-- The loop refines the protocol: from index `i` with enough fuel it runs the protocol with
`101 - i` iterations left, appending its rows and its vertices. -/
theorem loop_eq_protocol {α : Type} [LinearOrderedField α] (rnd : α → α) (fn : α → α)
    (fuel : Nat) : ∀ (i : Nat) (s : Run α),
    loop rnd fn fuel i s =
      { w := lastTriple s.w (protocol rnd fn (min fuel (101 - i)) s.w),
        out := s.out ++ rowsFrom i (protocol rnd fn (min fuel (101 - i)) s.w),
        calls := s.calls ++ (protocol rnd fn (min fuel (101 - i)) s.w).map Prod.fst } := by
  induction fuel with
  | zero => intro i s; simp [loop, protocol, lastTriple, rowsFrom]
  | succ n ih =>
    intro i s
    by_cases hi : i ≤ 100
    · have hm : min (n + 1) (101 - i) = min n (101 - (i + 1)) + 1 := by omega
      rw [hm]
      cases hz : interpolate rnd s.w with
      | none =>
        rw [loop_stop rnd fn (n + 1) i s hz]
        simp [protocol, hz, lastTriple, rowsFrom]
      | some z =>
        rw [loop_succ_some rnd fn n i s z hi hz, ih (i + 1) (body fn i z s)]
        simp [protocol, hz, lastTriple, rowsFrom, body_w_refit, body_calls, body_out]
    · have hm : min (n + 1) (101 - i) = 0 := by omega
      rw [hm, loop_past_cap rnd fn (n + 1) i s (not_le.mp hi)]
      simp [protocol, lastTriple, rowsFrom]

theorem protocol_length_le {α : Type} [LinearOrderedField α] (rnd : α → α) (fn : α → α)
    (n : Nat) : ∀ w : knownSet α, (protocol rnd fn n w).length ≤ n := by
  induction n with
  | zero => intro w; simp [protocol]
  | succ n ih =>
    intro w
    unfold protocol
    cases interpolate rnd w with
    | none => simp
    | some z => simpa using ih (refit fn w z)

theorem rowsFrom_length {α : Type} (l : List (α × knownSet α)) :
    ∀ i : Nat, (rowsFrom i l).length = l.length := by
  induction l with
  | nil => intro i; rfl
  | cons a l ih => intro i; obtain ⟨z, v⟩ := a; simp [rowsFrom, ih]

theorem PrintApproximation_eq {α : Type} [LinearOrderedField α] (rnd : α → α) (fn : α → α)
    (a b c : α) :
    PrintApproximation rnd fn a b c =
      { w := lastTriple (initRun fn a b c).w (protocol rnd fn 100 (initRun fn a b c).w),
        out := rowOf 0 (initRun fn a b c).w ::
          rowsFrom 1 (protocol rnd fn 100 (initRun fn a b c).w),
        calls := [(ord3 a b c).1, (ord3 a b c).2.1, (ord3 a b c).2.2] ++
          (protocol rnd fn 100 (initRun fn a b c).w).map Prod.fst } := by
  unfold PrintApproximation
  rw [loop_eq_protocol]
  rfl

theorem tripleAfter_zero {α : Type} [LinearOrderedField α] (rnd : α → α) (fn : α → α)
    (w : knownSet α) : tripleAfter rnd fn 0 w = w := rfl

theorem tripleAfter_succ_none {α : Type} [LinearOrderedField α] (rnd : α → α) (fn : α → α)
    (k : Nat) (w : knownSet α) (h : interpolate rnd w = none) :
    tripleAfter rnd fn (k + 1) w = w := by
  simp [tripleAfter, protocol, h, lastTriple]

theorem tripleAfter_succ_some {α : Type} [LinearOrderedField α] (rnd : α → α) (fn : α → α)
    (k : Nat) (w : knownSet α) (z : α) (h : interpolate rnd w = some z) :
    tripleAfter rnd fn (k + 1) w = tripleAfter rnd fn k (refit fn w z) := by
  simp [tripleAfter, protocol, h, lastTriple]

/-- One more iteration of the protocol: the next triple is the current one when its vertex
is not finite, and the refitted one otherwise. -/
theorem tripleAfter_step {α : Type} [LinearOrderedField α] (rnd : α → α) (fn : α → α)
    (k : Nat) : ∀ w : knownSet α,
    tripleAfter rnd fn (k + 1) w =
      match interpolate rnd (tripleAfter rnd fn k w) with
      | none => tripleAfter rnd fn k w
      | some z => refit fn (tripleAfter rnd fn k w) z := by
  induction k with
  | zero =>
    intro w
    rw [tripleAfter_zero]
    cases h : interpolate rnd w with
    | none => simp [tripleAfter_succ_none rnd fn 0 w h]
    | some z => simp [tripleAfter_succ_some rnd fn 0 w z h, tripleAfter_zero]
  | succ k ih =>
    intro w
    cases h : interpolate rnd w with
    | none =>
      rw [tripleAfter_succ_none rnd fn (k + 1) w h, tripleAfter_succ_none rnd fn k w h, h]
    | some z =>
      rw [tripleAfter_succ_some rnd fn (k + 1) w z h, tripleAfter_succ_some rnd fn k w z h]
      exact ih (refit fn w z)

/-- The `j`-th vertex listed by the protocol is the vertex of the triple held after `j`
iterations; the list ends where that vertex is not finite. -/
theorem protocol_vertex {α : Type} [LinearOrderedField α] (rnd : α → α) (fn : α → α)
    (n : Nat) : ∀ (w : knownSet α) (j : Nat), j < n →
    ((protocol rnd fn n w).map Prod.fst)[j]? = interpolate rnd (tripleAfter rnd fn j w) := by
  induction n with
  | zero => intro w j hj; omega
  | succ n ih =>
    intro w j hj
    cases h : interpolate rnd w with
    | none =>
      cases j with
      | zero => simp [protocol, h, tripleAfter_zero]
      | succ j => simp [protocol, h, tripleAfter_succ_none rnd fn j w h]
    | some z =>
      cases j with
      | zero => simp [protocol, h, tripleAfter_zero]
      | succ j =>
        rw [tripleAfter_succ_some rnd fn j w z h, ← ih (refit fn w z) j (by omega)]
        simp [protocol, h]

theorem protocol_finite_before {α : Type} [LinearOrderedField α] (rnd : α → α) (fn : α → α)
    (n : Nat) (w : knownSet α) (k : Nat) (hk : k < (protocol rnd fn n w).length) :
    interpolate rnd (tripleAfter rnd fn k w) ≠ none := by
  have hn : k < n := lt_of_lt_of_le hk (protocol_length_le rnd fn n w)
  rw [← protocol_vertex rnd fn n w k hn]
  simp [hk]

theorem protocol_stops {α : Type} [LinearOrderedField α] (rnd : α → α) (fn : α → α)
    (n : Nat) (w : knownSet α) (h : (protocol rnd fn n w).length < n) :
    interpolate rnd (tripleAfter rnd fn (protocol rnd fn n w).length w) = none := by
  rw [← protocol_vertex rnd fn n w _ h]
  simp

theorem protocol_full {α : Type} [LinearOrderedField α] (rnd : α → α) (fn : α → α)
    (n : Nat) (w : knownSet α)
    (h : ∀ k < n, interpolate rnd (tripleAfter rnd fn k w) ≠ none) :
    (protocol rnd fn n w).length = n := by
  rcases Nat.lt_or_ge (protocol rnd fn n w).length n with hlt | hge
  · exact absurd (protocol_stops rnd fn n w hlt) (h _ hlt)
  · exact le_antisymm (protocol_length_le rnd fn n w) hge

theorem tripleAfter_length {α : Type} [LinearOrderedField α] (rnd : α → α) (fn : α → α)
    (n : Nat) : ∀ w : knownSet α,
    tripleAfter rnd fn (protocol rnd fn n w).length w = tripleAfter rnd fn n w := by
  induction n with
  | zero => intro w; simp [protocol]
  | succ n ih =>
    intro w
    cases h : interpolate rnd w with
    | none => simp [protocol, h, tripleAfter_zero, tripleAfter_succ_none rnd fn n w h]
    | some z =>
      simp only [protocol, h, List.length_cons]
      rw [tripleAfter_succ_some rnd fn _ w z h, tripleAfter_succ_some rnd fn n w z h]
      exact ih (refit fn w z)

theorem rowsFrom_protocol {α : Type} [LinearOrderedField α] (rnd : α → α) (fn : α → α)
    (n : Nat) : ∀ (w : knownSet α) (i : Nat),
    rowsFrom i (protocol rnd fn n w) =
      (List.range (protocol rnd fn n w).length).map
        (fun k => rowOf (i + k) (tripleAfter rnd fn (k + 1) w)) := by
  induction n with
  | zero => intro w i; simp [protocol, rowsFrom]
  | succ n ih =>
    intro w i
    cases h : interpolate rnd w with
    | none => simp [protocol, h, rowsFrom]
    | some z =>
      simp only [protocol, h, rowsFrom, List.length_cons, List.range_succ_eq_map, List.map_cons,
        List.map_map]
      rw [ih (refit fn w z) (i + 1)]
      refine congrArg₂ _ ?_ ?_
      · simp [tripleAfter_succ_some rnd fn 0 w z h, tripleAfter_zero]
      · apply List.map_congr_left
        intro k _
        simp only [Function.comp]
        rw [tripleAfter_succ_some rnd fn (k + 1) w z h]
        congr 1
        omega

theorem rowsFrom_index {α : Type} (l : List (α × knownSet α)) :
    ∀ i : Nat, (rowsFrom i l).map Row.i = List.range' i l.length := by
  induction l with
  | nil => intro i; rfl
  | cons a l ih => intro i; obtain ⟨z, v⟩ := a; simp [rowsFrom, ih, rowOf, List.range']

theorem sampled_sample {α : Type} (fn : α → α) (x1 x2 x3 : α) :
    sampled fn (sample fn x1 x2 x3) := ⟨rfl, rfl, rfl⟩

theorem refit_sampled {α : Type} [LinearOrder α] (fn : α → α) (w : knownSet α) (z : α)
    (h : sampled fn w) : sampled fn (refit fn w z) := by
  obtain ⟨h1, h2, h3⟩ := h
  unfold refit squeeze
  split_ifs
  · exact ⟨rfl, h1, h2⟩
  · exact ⟨h1, rfl, h2⟩
  · exact ⟨h2, rfl, h3⟩
  · exact ⟨h2, h3, rfl⟩

theorem refit_getY {α : Type} [LinearOrder α] (fn : α → α) (w : knownSet α) (z : α) :
    getY (squeeze w z).1 (squeeze w z).2 = nan ∧
    getY (refit fn w z) (squeeze w z).2 = some (fn z) := by
  unfold refit squeeze
  split_ifs <;> exact ⟨rfl, rfl⟩

theorem tripleAfter_sampled {α : Type} [LinearOrderedField α] (rnd : α → α) (fn : α → α)
    (w : knownSet α) (h : sampled fn w) : ∀ k, sampled fn (tripleAfter rnd fn k w) := by
  intro k
  induction k with
  | zero => exact h
  | succ k ih =>
    rw [tripleAfter_step]
    cases hz : interpolate rnd (tripleAfter rnd fn k w) with
    | none => exact ih
    | some z => exact refit_sampled fn _ z ih

theorem loop_w {α : Type} [LinearOrderedField α] (rnd : α → α) (fn : α → α)
    (fuel i : Nat) (s : Run α) :
    (loop rnd fn fuel i s).w = tripleAfter rnd fn (min fuel (101 - i)) s.w := by
  rw [loop_eq_protocol]
  rfl

theorem denominator_points {α : Type} [LinearOrderedField α] (x1 y1 x2 y2 x3 y3 : α) :
    denominator id (points x1 y1 x2 y2 x3 y3) =
      some (x1 * (y2 - y3) + x2 * (y3 - y1) + x3 * (y1 - y2)) := rfl

theorem interpolate_points {α : Type} [LinearOrderedField α] (x1 y1 x2 y2 x3 y3 : α) :
    interpolate id (points x1 y1 x2 y2 x3 y3) =
    if x1 * (y2 - y3) + x2 * (y3 - y1) + x3 * (y1 - y2) = 0 then none
    else some (1 / 2 * (x1 * (x1 * (y2 - y3)) + x2 * (x2 * (y3 - y1)) + x3 * (x3 * (y1 - y2))) /
      (x1 * (y2 - y3) + x2 * (y3 - y1) + x3 * (y1 - y2))) := rfl

theorem interpolate_rescale_points {α : Type} [LinearOrderedField α]
    (x1 y1 x2 y2 x3 y3 s t : α) (hs : s ≠ 0) :
    interpolate id (points x1 (s * y1 + t) x2 (s * y2 + t) x3 (s * y3 + t)) =
      interpolate id (points x1 y1 x2 y2 x3 y3) := by
  rw [interpolate_points, interpolate_points]
  have hd : x1 * (s * y2 + t - (s * y3 + t)) + x2 * (s * y3 + t - (s * y1 + t))
      + x3 * (s * y1 + t - (s * y2 + t))
      = s * (x1 * (y2 - y3) + x2 * (y3 - y1) + x3 * (y1 - y2)) := by ring
  have hn : x1 * (x1 * (s * y2 + t - (s * y3 + t))) + x2 * (x2 * (s * y3 + t - (s * y1 + t)))
      + x3 * (x3 * (s * y1 + t - (s * y2 + t)))
      = s * (x1 * (x1 * (y2 - y3)) + x2 * (x2 * (y3 - y1)) + x3 * (x3 * (y1 - y2))) := by ring
  rw [hd, hn]
  by_cases h0 : x1 * (y2 - y3) + x2 * (y3 - y1) + x3 * (y1 - y2) = 0
  · rw [h0, mul_zero, if_pos rfl, if_pos rfl]
  · rw [if_neg (mul_ne_zero hs h0), if_neg h0]
    congr 1
    field_simp
    ring

theorem sampled_points {α : Type} (fn : α → α) (x1 y1 x2 y2 x3 y3 : α)
    (h : sampled fn (points x1 y1 x2 y2 x3 y3)) : y1 = fn x1 ∧ y2 = fn x2 ∧ y3 = fn x3 :=
  ⟨Option.some.inj h.1, Option.some.inj h.2.1, Option.some.inj h.2.2⟩

/-- No quadratic with a non-zero leading coefficient passes through three points with
pairwise distinct abscissas for which the divisor of interpolate vanishes. -/
theorem no_quadratic_of_divisor_zero {α : Type} [LinearOrderedField α]
    (x1 y1 x2 y2 x3 y3 : α) (h12 : x1 ≠ x2) (h13 : x1 ≠ x3) (h23 : x2 ≠ x3)
    (hd : x1 * (y2 - y3) + x2 * (y3 - y1) + x3 * (y1 - y2) = 0) :
    ¬ ∃ p q r : α, p ≠ 0 ∧ sampled (quadratic p q r) (points x1 y1 x2 y2 x3 y3) := by
  rintro ⟨p, q, r, hp, hs⟩
  obtain ⟨e1, e2, e3⟩ := sampled_points _ _ _ _ _ _ _ hs
  rw [e1, e2, e3, quadratic_denominator] at hd
  have hv : (x1 - x2) * (x2 - x3) * (x3 - x1) ≠ 0 :=
    mul_ne_zero (mul_ne_zero (sub_ne_zero.mpr h12) (sub_ne_zero.mpr h23))
      (sub_ne_zero.mpr (Ne.symm h13))
  exact mul_ne_zero hp hv hd

/-- Through three points with pairwise distinct abscissas and a non-zero divisor there
passes a quadratic with a non-zero leading coefficient. -/
theorem exists_quadratic_of_divisor_ne_zero {α : Type} [LinearOrderedField α]
    (x1 y1 x2 y2 x3 y3 : α) (h12 : x1 ≠ x2) (h13 : x1 ≠ x3) (h23 : x2 ≠ x3)
    (hd : x1 * (y2 - y3) + x2 * (y3 - y1) + x3 * (y1 - y2) ≠ 0) :
    ∃ p q r : α, p ≠ 0 ∧ sampled (quadratic p q r) (points x1 y1 x2 y2 x3 y3) := by
  have n12 : x1 - x2 ≠ 0 := sub_ne_zero.mpr h12
  have n23 : x2 - x3 ≠ 0 := sub_ne_zero.mpr h23
  have n31 : x3 - x1 ≠ 0 := sub_ne_zero.mpr (Ne.symm h13)
  have nv : (x1 - x2) * (x2 - x3) * (x3 - x1) ≠ 0 := mul_ne_zero (mul_ne_zero n12 n23) n31
  obtain ⟨P, hP⟩ : ∃ P : α, P * ((x1 - x2) * (x2 - x3) * (x3 - x1)) =
      x1 * (y2 - y3) + x2 * (y3 - y1) + x3 * (y1 - y2) := ⟨_, div_mul_cancel₀ _ nv⟩
  obtain ⟨S, hS⟩ : ∃ S : α, S * (x1 - x2) = y1 - y2 := ⟨_, div_mul_cancel₀ _ n12⟩
  have hP0 : P ≠ 0 := by
    intro h
    rw [h, zero_mul] at hP
    exact hd hP.symm
  refine ⟨P, S - P * (x1 + x2), y1 - P * (x1 * x1) - (S - P * (x1 + x2)) * x1, hP0, ?_, ?_, ?_⟩
  · show some y1 = some (quadratic _ _ _ x1)
    congr 1
    unfold quadratic
    ring
  · show some y2 = some (quadratic _ _ _ x2)
    congr 1
    unfold quadratic
    linear_combination hS
  · show some y3 = some (quadratic _ _ _ x3)
    congr 1
    unfold quadratic
    apply mul_left_cancel₀ n12
    linear_combination hP - (x3 - x1) * hS

theorem squeeze_others {α : Type} [LinearOrder α] (w : knownSet α) (x : α) (h : sorted w) :
    others (squeeze w x).1 (squeeze w x).2 =
      if x ≤ w.x2 then [(w.x1, w.y1), (w.x2, w.y2)] else [(w.x2, w.y2), (w.x3, w.y3)] := by
  obtain ⟨h12, h23⟩ := h
  unfold squeeze
  split_ifs with a b c d
  · rfl
  · exact absurd (le_trans a h12) b
  · rfl
  · rfl
  · rfl

theorem initRun_of_sorted {α : Type} [LinearOrder α] (fn : α → α) (a b c : α)
    (hab : a ≤ b) (hbc : b ≤ c) :
    initRun fn a b c =
      { w := sample fn a b c, out := [rowOf 0 (sample fn a b c)], calls := [a, b, c] } := by
  unfold initRun
  rw [ord3_of_sorted a b c hab hbc]

theorem refit_sample {α : Type} [LinearOrder α] (fn : α → α) (z x1 x2 x3 : α) :
    refit fn (sample fn x1 x2 x3) z =
      if z ≤ x1 then sample fn z x1 x2
      else if z ≤ x2 then sample fn x1 z x2
      else if z ≤ x3 then sample fn x2 z x3
      else sample fn x2 x3 z := by
  rw [← body_w_refit fn 0 z { w := sample fn x1 x2 x3, out := [], calls := [] }]
  exact body_w_sample fn 0 z x1 x2 x3 [] []

/-- Refitting a sample triple at `x1 < x2 < x3` with the candidate `v`: the new triple is a
sample triple again; it holds `v` in two neighbouring slots when `v` is one of the old
abscissas, and is strictly ascending with `v` among its abscissas otherwise. -/
theorem refit_cases {α : Type} [LinearOrder α] (fn : α → α) (v x1 x2 x3 : α)
    (h12 : x1 < x2) (h23 : x2 < x3) :
    ∃ t1 t2 t3, refit fn (sample fn x1 x2 x3) v = sample fn t1 t2 t3 ∧
      ((v = x1 ∨ v = x2 ∨ v = x3) → (t1 = v ∧ t2 = v) ∨ (t2 = v ∧ t3 = v)) ∧
      ((v ≠ x1 ∧ v ≠ x2 ∧ v ≠ x3) → t1 < t2 ∧ t2 < t3 ∧ (v = t1 ∨ v = t2 ∨ v = t3)) := by
  rw [refit_sample]
  split_ifs with a b c
  · refine ⟨v, x1, x2, rfl, ?_, ?_⟩
    · rintro (h | h | h)
      · exact Or.inl ⟨rfl, h.symm⟩
      · exact absurd (h ▸ a) (not_le.mpr h12)
      · exact absurd (h ▸ a) (not_le.mpr (lt_trans h12 h23))
    · rintro ⟨n1, _, _⟩
      exact ⟨lt_of_le_of_ne a n1, h12, Or.inl rfl⟩
  · refine ⟨x1, v, x2, rfl, ?_, ?_⟩
    · rintro (h | h | h)
      · exact absurd (le_of_eq h) a
      · exact Or.inr ⟨rfl, h.symm⟩
      · exact absurd (h ▸ b) (not_le.mpr h23)
    · rintro ⟨_, n2, _⟩
      exact ⟨not_le.mp a, lt_of_le_of_ne b n2, Or.inr (Or.inl rfl)⟩
  · refine ⟨x2, v, x3, rfl, ?_, ?_⟩
    · rintro (h | h | h)
      · exact absurd (le_of_eq h) a
      · exact absurd (le_of_eq h) b
      · exact Or.inr ⟨rfl, h.symm⟩
    · rintro ⟨_, _, n3⟩
      exact ⟨not_le.mp b, lt_of_le_of_ne c n3, Or.inr (Or.inl rfl)⟩
  · refine ⟨x2, x3, v, rfl, ?_, ?_⟩
    · rintro (h | h | h)
      · exact absurd (le_of_eq h) a
      · exact absurd (le_of_eq h) b
      · exact absurd (le_of_eq h) c
    · rintro _
      exact ⟨h23, not_le.mp c, Or.inr (Or.inr rfl)⟩

theorem protocol_quadratic_step {α : Type} [LinearOrderedField α] (p q r x1 x2 x3 : α)
    (n : Nat) (hp : p ≠ 0) (h12 : x1 < x2) (h23 : x2 < x3) :
    protocol id (quadratic p q r) (n + 1) (sample (quadratic p q r) x1 x2 x3) =
      (-q / (2 * p), refit (quadratic p q r) (sample (quadratic p q r) x1 x2 x3) (-q / (2 * p)))
        :: protocol id (quadratic p q r) n
            (refit (quadratic p q r) (sample (quadratic p q r) x1 x2 x3) (-q / (2 * p))) := by
  have h := interpolate_sample_quadratic p q r x1 x2 x3 hp (ne_of_lt h12)
    (ne_of_lt (lt_trans h12 h23)) (ne_of_lt h23)
  simp [protocol, h]

theorem interpolate_quadratic_repeated {α : Type} [LinearOrderedField α]
    (p q r v t1 t2 t3 : α) (hp : p ≠ 0) (h : (t1 = v ∧ t2 = v) ∨ (t2 = v ∧ t3 = v)) :
    interpolate id (sample (quadratic p q r) t1 t2 t3) = none := by
  rw [interpolate_sample_quadratic_cases p q r t1 t2 t3 hp, if_pos]
  rcases h with ⟨e1, e2⟩ | ⟨e2, e3⟩
  · exact Or.inl (e1.trans e2.symm)
  · exact Or.inr (Or.inr (e2.trans e3.symm))

theorem protocol_stop {α : Type} [LinearOrderedField α] (rnd : α → α) (fn : α → α) (n : Nat)
    (w : knownSet α) (h : interpolate rnd w = none) : protocol rnd fn n w = [] := by
  cases n with
  | zero => rfl
  | succ n => simp [protocol, h]

/-- The run on samples of a quadratic from `a < b < c`, in exact arithmetic: it ends on a
sample triple holding the vertex in two neighbouring slots, after one iteration when the
vertex is one of `a, b, c` and after two iterations otherwise. -/
theorem quadratic_run {α : Type} [LinearOrderedField α] (p q r a b c : α) (hp : p ≠ 0)
    (hab : a < b) (hbc : b < c) :
    ∃ t1 t2 t3,
      (PrintApproximation id (quadratic p q r) a b c).w = sample (quadratic p q r) t1 t2 t3 ∧
      ((t1 = -q / (2 * p) ∧ t2 = -q / (2 * p)) ∨ (t2 = -q / (2 * p) ∧ t3 = -q / (2 * p))) ∧
      ((-q / (2 * p) = a ∨ -q / (2 * p) = b ∨ -q / (2 * p) = c) →
        (PrintApproximation id (quadratic p q r) a b c).out.length = 2 ∧
        (PrintApproximation id (quadratic p q r) a b c).calls = [a, b, c, -q / (2 * p)]) ∧
      ((-q / (2 * p) ≠ a ∧ -q / (2 * p) ≠ b ∧ -q / (2 * p) ≠ c) →
        (PrintApproximation id (quadratic p q r) a b c).out.length = 3 ∧
        (PrintApproximation id (quadratic p q r) a b c).calls =
          [a, b, c, -q / (2 * p), -q / (2 * p)]) := by
  have hR := PrintApproximation_eq id (quadratic p q r) a b c
  rw [initRun_of_sorted _ a b c (le_of_lt hab) (le_of_lt hbc),
    ord3_of_sorted a b c (le_of_lt hab) (le_of_lt hbc)] at hR
  have h100 : protocol id (quadratic p q r) 100 (sample (quadratic p q r) a b c) = _ :=
    protocol_quadratic_step p q r a b c 99 hp hab hbc
  simp only [] at hR
  rw [h100] at hR
  obtain ⟨t1, t2, t3, hw1, hdup, hdist⟩ := refit_cases (quadratic p q r) (-q / (2 * p)) a b c
    hab hbc
  rw [hw1] at hR
  by_cases hv : -q / (2 * p) = a ∨ -q / (2 * p) = b ∨ -q / (2 * p) = c
  · have hstop := protocol_stop id (quadratic p q r) 99 _
      (interpolate_quadratic_repeated p q r _ t1 t2 t3 hp (hdup hv))
    rw [hstop] at hR
    refine ⟨t1, t2, t3, ?_, hdup hv, ?_, ?_⟩
    · rw [hR]; rfl
    · intro _
      rw [hR]
      exact ⟨rfl, rfl⟩
    · intro hn
      exact absurd hv (by rw [not_or, not_or]; exact hn)
  · have hn : -q / (2 * p) ≠ a ∧ -q / (2 * p) ≠ b ∧ -q / (2 * p) ≠ c := by
      rw [not_or, not_or] at hv
      exact hv
    obtain ⟨h12, h23, hmem⟩ := hdist hn
    have h99 : protocol id (quadratic p q r) 99 (sample (quadratic p q r) t1 t2 t3) = _ :=
      protocol_quadratic_step p q r t1 t2 t3 98 hp h12 h23
    rw [h99] at hR
    obtain ⟨u1, u2, u3, hw2, hdup2, _⟩ := refit_cases (quadratic p q r) (-q / (2 * p))
      t1 t2 t3 h12 h23
    have hmem2 : -q / (2 * p) = t1 ∨ -q / (2 * p) = t2 ∨ -q / (2 * p) = t3 := hmem
    rw [hw2] at hR
    have hstop := protocol_stop id (quadratic p q r) 98 _
      (interpolate_quadratic_repeated p q r _ u1 u2 u3 hp (hdup2 hmem2))
    rw [hstop] at hR
    refine ⟨u1, u2, u3, ?_, hdup2 hmem2, ?_, ?_⟩
    · rw [hR]; rfl
    · intro h
      exact absurd h hv
    · intro _
      rw [hR]
      exact ⟨rfl, rfl⟩

/-! ## Main theorems -/

/-- C1: squeeze keeps a sorted triple sorted, for every candidate, and so does any
sequence of squeezes with arbitrary candidates. -/
theorem squeeze_preserves_sorted {α : Type} [LinearOrder α] (w : knownSet α) (x : α)
    (xs : List α) (h : sorted w) :
    sorted (squeeze w x).1 ∧ sorted (squeezeAll w xs) :=
  ⟨squeeze_fst_sorted w x h, squeezeAll_sorted xs w h⟩

theorem squeeze_preserves_sorted_witness :
    sorted w014 ∧
    sorted (squeeze w014 2).1 ∧
    sorted (squeezeAll w014 [2, 7, -1, 0]) :=
  ⟨by decide, squeeze_preserves_sorted _ 2 [2, 7, -1, 0] (by decide)⟩

/-- C2: on a sorted triple squeeze follows the four-zone table on the abscissas, and a
candidate equal to `x1`, to `x2 > x1` or to `x3 > x2` takes the lower branch: the triple
becomes `(x1, x1, x2)`, `(x1, x2, x2)` with the third sample dropped, or `(x2, x3, x3)`
with the first sample dropped. -/
theorem squeeze_zone_table {α : Type} [LinearOrder α] (w : knownSet α) (x : α)
    (h : sorted w) :
    (x ≤ w.x1 → abscissas (squeeze w x).1 = (x, w.x1, w.x2)) ∧
    (w.x1 < x ∧ x ≤ w.x2 → abscissas (squeeze w x).1 = (w.x1, x, w.x2)) ∧
    (w.x2 < x ∧ x ≤ w.x3 → abscissas (squeeze w x).1 = (w.x2, x, w.x3)) ∧
    (w.x3 < x → abscissas (squeeze w x).1 = (w.x2, w.x3, x)) ∧
    (x = w.x1 → abscissas (squeeze w x).1 = (w.x1, w.x1, w.x2) ∧
      ordinates (squeeze w x).1 = (nan, w.y1, w.y2)) ∧
    (x = w.x2 ∧ w.x1 < w.x2 → abscissas (squeeze w x).1 = (w.x1, w.x2, w.x2) ∧
      ordinates (squeeze w x).1 = (w.y1, nan, w.y2)) ∧
    (x = w.x3 ∧ w.x2 < w.x3 → abscissas (squeeze w x).1 = (w.x2, w.x3, w.x3) ∧
      ordinates (squeeze w x).1 = (w.y2, nan, w.y3)) := by
  obtain ⟨h12, h23⟩ := h
  refine ⟨?_, ?_, ?_, ?_, ?_, ?_, ?_⟩
  · intro a
    simp [squeeze, abscissas, a]
  · rintro ⟨a, b⟩
    simp [squeeze, abscissas, not_le.mpr a, b]
  · rintro ⟨a, b⟩
    simp [squeeze, abscissas, not_le.mpr (lt_of_le_of_lt h12 a), not_le.mpr a, b]
  · intro a
    have a2 : w.x2 < x := lt_of_le_of_lt h23 a
    simp [squeeze, abscissas, not_le.mpr (lt_of_le_of_lt h12 a2), not_le.mpr a2, not_le.mpr a]
  · intro a
    subst a
    simp [squeeze, abscissas, ordinates]
  · rintro ⟨a, b⟩
    subst a
    simp [squeeze, abscissas, ordinates, not_le.mpr b]
  · rintro ⟨a, b⟩
    subst a
    simp [squeeze, abscissas, ordinates, not_le.mpr (lt_of_le_of_lt h12 b), not_le.mpr b]

theorem squeeze_zone_table_witness :
    sorted w014 ∧
    abscissas (squeeze w014 4).1 = (1, 4, 4) ∧
    ordinates (squeeze w014 4).1 = (some 1, nan, some 16) :=
  ⟨by decide, (squeeze_zone_table w014 4 (by decide)).2.2.2.2.2.2 ⟨rfl, by decide⟩⟩

/-- C3: for a sorted triple with three evaluated y-values and any candidate, exactly one
of the four zone conditions holds, and after squeeze exactly one y-value is the sentinel
and the other two are evaluated. -/
theorem squeeze_zone_coverage {α : Type} [LinearOrder α] (w : knownSet α) (x : α)
    (h : sorted w) (hy : evaluated w) :
    [decide (x ≤ w.x1), decide (w.x1 < x ∧ x ≤ w.x2), decide (w.x2 < x ∧ x ≤ w.x3),
      decide (w.x3 < x)].count true = 1 ∧
    [(squeeze w x).1.y1, (squeeze w x).1.y2, (squeeze w x).1.y3].countP Option.isNone = 1 ∧
    [(squeeze w x).1.y1, (squeeze w x).1.y2, (squeeze w x).1.y3].countP Option.isSome = 2 := by
  obtain ⟨h12, h23⟩ := h
  obtain ⟨e1, e2, e3⟩ := hy
  obtain ⟨a1, ha1⟩ := Option.isSome_iff_exists.mp e1
  obtain ⟨a2, ha2⟩ := Option.isSome_iff_exists.mp e2
  obtain ⟨a3, ha3⟩ := Option.isSome_iff_exists.mp e3
  by_cases c1 : x ≤ w.x1
  · have n1 : ¬ w.x1 < x := not_lt.mpr c1
    have n2 : ¬ w.x2 < x := not_lt.mpr (le_trans c1 h12)
    have n3 : ¬ w.x3 < x := not_lt.mpr (le_trans (le_trans c1 h12) h23)
    simp [squeeze, nan, c1, n1, n2, n3, ha1, ha2, ha3]
  · by_cases c2 : x ≤ w.x2
    · have n2 : ¬ w.x2 < x := not_lt.mpr c2
      have n3 : ¬ w.x3 < x := not_lt.mpr (le_trans c2 h23)
      simp [squeeze, nan, c1, c2, not_le.mp c1, n2, n3, ha1, ha2, ha3]
    · by_cases c3 : x ≤ w.x3
      · have n3 : ¬ w.x3 < x := not_lt.mpr c3
        simp [squeeze, nan, c1, c2, c3, not_le.mp c1, not_le.mp c2, n3, ha1, ha2, ha3]
      · simp [squeeze, nan, c1, c2, c3, not_le.mp c1, not_le.mp c2, not_le.mp c3, ha1, ha2, ha3]

theorem squeeze_zone_coverage_witness :
    [decide ((2 : Int) ≤ 0), decide ((0 : Int) < 2 ∧ (2 : Int) ≤ 1),
      decide ((1 : Int) < 2 ∧ (2 : Int) ≤ 4), decide ((4 : Int) < 2)].count true = 1 ∧
    [(squeeze w014 2).1.y1, (squeeze w014 2).1.y2, (squeeze w014 2).1.y3].countP
      Option.isNone = 1 ∧
    [(squeeze w014 2).1.y1, (squeeze w014 2).1.y2, (squeeze w014 2).1.y3].countP
      Option.isSome = 2 :=
  squeeze_zone_coverage w014 2 (by decide) (by decide)

/-- C4: the slot squeeze reports holds the candidate and the sentinel; every other slot of
the new triple holds one of the old samples unchanged, so that on a triple with three
evaluated y-values the reported slot is the only one holding the sentinel.  Sortedness of
the triple is not needed. -/
theorem squeeze_reports_inserted {α : Type} [LinearOrder α] (w : knownSet α) (x : α) :
    getX (squeeze w x).1 (squeeze w x).2 = x ∧
    getY (squeeze w x).1 (squeeze w x).2 = nan ∧
    (∀ t, t ≠ (squeeze w x).2 →
      ∃ u, getX (squeeze w x).1 t = getX w u ∧ getY (squeeze w x).1 t = getY w u) ∧
    (evaluated w → ∀ t, getY (squeeze w x).1 t = nan ↔ t = (squeeze w x).2) := by
  unfold squeeze
  split_ifs with a b c
  · refine ⟨rfl, rfl, ?_, ?_⟩
    · intro t ht
      cases t
      · exact absurd rfl ht
      · exact ⟨Slot.s1, rfl, rfl⟩
      · exact ⟨Slot.s2, rfl, rfl⟩
    · rintro ⟨e1, e2, e3⟩ t
      have n1 := Option.ne_none_iff_isSome.mpr e1
      have n2 := Option.ne_none_iff_isSome.mpr e2
      have n3 := Option.ne_none_iff_isSome.mpr e3
      cases t <;> simp [getY, nan, n1, n2, n3]
  · refine ⟨rfl, rfl, ?_, ?_⟩
    · intro t ht
      cases t
      · exact ⟨Slot.s1, rfl, rfl⟩
      · exact absurd rfl ht
      · exact ⟨Slot.s2, rfl, rfl⟩
    · rintro ⟨e1, e2, e3⟩ t
      have n1 := Option.ne_none_iff_isSome.mpr e1
      have n2 := Option.ne_none_iff_isSome.mpr e2
      have n3 := Option.ne_none_iff_isSome.mpr e3
      cases t <;> simp [getY, nan, n1, n2, n3]
  · refine ⟨rfl, rfl, ?_, ?_⟩
    · intro t ht
      cases t
      · exact ⟨Slot.s2, rfl, rfl⟩
      · exact absurd rfl ht
      · exact ⟨Slot.s3, rfl, rfl⟩
    · rintro ⟨e1, e2, e3⟩ t
      have n1 := Option.ne_none_iff_isSome.mpr e1
      have n2 := Option.ne_none_iff_isSome.mpr e2
      have n3 := Option.ne_none_iff_isSome.mpr e3
      cases t <;> simp [getY, nan, n1, n2, n3]
  · refine ⟨rfl, rfl, ?_, ?_⟩
    · intro t ht
      cases t
      · exact ⟨Slot.s2, rfl, rfl⟩
      · exact ⟨Slot.s3, rfl, rfl⟩
      · exact absurd rfl ht
    · rintro ⟨e1, e2, e3⟩ t
      have n1 := Option.ne_none_iff_isSome.mpr e1
      have n2 := Option.ne_none_iff_isSome.mpr e2
      have n3 := Option.ne_none_iff_isSome.mpr e3
      cases t <;> simp [getY, nan, n1, n2, n3]

theorem squeeze_reports_inserted_witness :
    (squeeze w014 2).2 = Slot.s2 ∧
    ∀ t, getY (squeeze w014 2).1 t = nan ↔ t = (squeeze w014 2).2 :=
  ⟨by decide, (squeeze_reports_inserted w014 2).2.2.2 (by decide)⟩

/-- C5: in exact arithmetic, for samples of `p*x^2 + q*x + r` with `p` non-zero at three
pairwise distinct abscissas, the divisor of interpolate is a non-zero number and
interpolate returns exactly `-q/(2p)`. -/
theorem interpolate_exact_vertex {α : Type} [LinearOrderedField α] (p q r x1 x2 x3 : α)
    (hp : p ≠ 0) (h12 : x1 ≠ x2) (h13 : x1 ≠ x3) (h23 : x2 ≠ x3) :
    (∃ d, denominator id (sample (quadratic p q r) x1 x2 x3) = some d ∧ d ≠ 0) ∧
    interpolate id (sample (quadratic p q r) x1 x2 x3) = some (-q / (2 * p)) := by
  refine ⟨⟨_, denominator_evaluated _ _ _ _ _ _, ?_⟩,
    interpolate_sample_quadratic p q r x1 x2 x3 hp h12 h13 h23⟩
  rw [quadratic_denominator]
  exact mul_ne_zero hp (mul_ne_zero (mul_ne_zero (sub_ne_zero.mpr h12) (sub_ne_zero.mpr h23))
    (sub_ne_zero.mpr (Ne.symm h13)))

theorem interpolate_exact_vertex_witness :
    (∃ d, denominator id (sample (quadratic (1 : ℚ) (-2) 3) 0 1 4) = some d ∧ d ≠ 0) ∧
    interpolate id (sample (quadratic (1 : ℚ) (-2) 3) 0 1 4) = some (-(-2) / (2 * 1)) :=
  interpolate_exact_vertex (1 : ℚ) (-2) 3 0 1 4 (by norm_num) (by norm_num) (by norm_num)
    (by norm_num)

/-- C6, as stated, fails: for `x^2` sampled at `-1, 0, 1` the vertex `0` is an abscissa
of the triple; after the squeeze the triple is `(-1, 0, 0)` and interpolating again gives a
non-finite value, not `0`. -/
theorem refit_not_fixed_point :
    sorted (sample (quadratic (1 : ℚ) 0 0) (-1) 0 1) ∧
    interpolate id (sample (quadratic (1 : ℚ) 0 0) (-1) 0 1) = some 0 ∧
    abscissas (body (quadratic (1 : ℚ) 0 0) 1 0
      { w := sample (quadratic (1 : ℚ) 0 0) (-1) 0 1, out := [], calls := [] }).w = (-1, 0, 0) ∧
    interpolate id (body (quadratic (1 : ℚ) 0 0) 1 0
      { w := sample (quadratic (1 : ℚ) 0 0) (-1) 0 1, out := [], calls := [] }).w = none := by
  refine ⟨?_, ?_, ?_, ?_⟩
  · simp [sorted, sample]
  · rw [interpolate_sample_quadratic_cases _ _ _ _ _ _ one_ne_zero]
    norm_num
  · rw [body_w_sample]
    norm_num [abscissas, sample]
  · rw [body_w_sample]
    norm_num
    exact interpolate_sample_quadratic_cases _ _ _ _ _ _ one_ne_zero

/-- C6, amended: in exact arithmetic, for samples of `p*x^2 + q*x + r` with `p` non-zero at
`x1 < x2 < x3`, interpolate gives `v = -q/(2p)`; one pass of the loop body with `v` (squeeze,
then the function value stored in the reported slot) gives a triple on which interpolate
yields `v` again when `v` is none of `x1, x2, x3`, and a non-finite value when it is one of
them. -/
theorem refit_fixed_point {α : Type} [LinearOrderedField α] (p q r x1 x2 x3 : α) (i : Nat)
    (out : List (Row α)) (calls : List α) (hp : p ≠ 0) (h12 : x1 < x2) (h23 : x2 < x3) :
    interpolate id (sample (quadratic p q r) x1 x2 x3) = some (-q / (2 * p)) ∧
    (-q / (2 * p) ≠ x1 ∧ -q / (2 * p) ≠ x2 ∧ -q / (2 * p) ≠ x3 →
      interpolate id (body (quadratic p q r) i (-q / (2 * p))
        { w := sample (quadratic p q r) x1 x2 x3, out := out, calls := calls }).w
        = some (-q / (2 * p))) ∧
    (-q / (2 * p) = x1 ∨ -q / (2 * p) = x2 ∨ -q / (2 * p) = x3 →
      interpolate id (body (quadratic p q r) i (-q / (2 * p))
        { w := sample (quadratic p q r) x1 x2 x3, out := out, calls := calls }).w = none) := by
  have h13 : x1 < x3 := lt_trans h12 h23
  refine ⟨interpolate_sample_quadratic p q r x1 x2 x3 hp (ne_of_lt h12) (ne_of_lt h13)
    (ne_of_lt h23), ?_, ?_⟩
  · rintro ⟨n1, n2, n3⟩
    rw [body_w_sample]
    split_ifs with a b c
    · exact interpolate_sample_quadratic p q r _ _ _ hp n1 n2 (ne_of_lt h12)
    · exact interpolate_sample_quadratic p q r _ _ _ hp (Ne.symm n1) (ne_of_lt h12) n2
    · exact interpolate_sample_quadratic p q r _ _ _ hp (Ne.symm n2) (ne_of_lt h23) n3
    · exact interpolate_sample_quadratic p q r _ _ _ hp (ne_of_lt h23) (Ne.symm n2) (Ne.symm n3)
  · intro h
    rw [body_w_sample]
    split_ifs with a b c
    · rw [interpolate_sample_quadratic_cases _ _ _ _ _ _ hp, if_pos]
      rcases h with h | h | h
      · exact Or.inl h
      · exact Or.inr (Or.inl h)
      · exact absurd (h ▸ a) (not_le.mpr h13)
    · rw [interpolate_sample_quadratic_cases _ _ _ _ _ _ hp, if_pos]
      rcases h with h | h | h
      · exact Or.inl h.symm
      · exact Or.inr (Or.inr h)
      · exact absurd (h ▸ b) (not_le.mpr h23)
    · rw [interpolate_sample_quadratic_cases _ _ _ _ _ _ hp, if_pos]
      rcases h with h | h | h
      · exact absurd (h ▸ b) (not_not.mpr (le_of_lt h12))
      · exact Or.inl h.symm
      · exact Or.inr (Or.inr h)
    · rw [interpolate_sample_quadratic_cases _ _ _ _ _ _ hp, if_pos]
      rcases h with h | h | h
      · exact absurd (h ▸ c) (not_not.mpr (le_of_lt h13))
      · exact Or.inr (Or.inl h.symm)
      · exact Or.inr (Or.inr h.symm)

theorem refit_fixed_point_witness :
    (interpolate id (sample (quadratic (1 : ℚ) (-2) 3) 0 2 5) = some (-(-2) / (2 * 1)) ∧
      interpolate id (body (quadratic (1 : ℚ) (-2) 3) 1 (-(-2) / (2 * 1))
        { w := sample (quadratic (1 : ℚ) (-2) 3) 0 2 5, out := [], calls := [] }).w
        = some (-(-2) / (2 * 1))) ∧
    interpolate id (body (quadratic (1 : ℚ) 0 0) 1 (-0 / (2 * 1))
      { w := sample (quadratic (1 : ℚ) 0 0) (-1) 0 1, out := [], calls := [] }).w = none :=
  ⟨⟨(refit_fixed_point (1 : ℚ) (-2) 3 0 2 5 1 [] [] (by norm_num) (by norm_num)
      (by norm_num)).1,
    (refit_fixed_point (1 : ℚ) (-2) 3 0 2 5 1 [] [] (by norm_num) (by norm_num)
      (by norm_num)).2.1 ⟨by norm_num, by norm_num, by norm_num⟩⟩,
   (refit_fixed_point (1 : ℚ) 0 0 (-1) 0 1 1 [] [] (by norm_num) (by norm_num)
      (by norm_num)).2.2 (Or.inr (Or.inl (by norm_num)))⟩

/-- C7: the code breaks the claim, and the doc comment of interpolate with it.  For
`f(x) = x` and the initial abscissas `0.1, 0.2, 0.3` (the floats nearest to 1/10, 2/10,
3/10) the three samples are exactly collinear, yet with the rounding of `float64` the
divisor of interpolate is `2^-58`, not zero, the vertex `-2305843009213693/8` is finite,
and the run does not halt at iteration 0: it writes the rows of index 1 and 2 and calls the
function five times. -/
theorem affine_run_continues_float64 :
    denominator round64
      (initRun (affine (1 : ℚ) 0) (round64 (1 / 10)) (round64 (2 / 10)) (round64 (3 / 10))).w
      = some (1 / 2 ^ 58) ∧
    interpolate round64
      (initRun (affine (1 : ℚ) 0) (round64 (1 / 10)) (round64 (2 / 10)) (round64 (3 / 10))).w
      = some (-2305843009213693 / 8) ∧
    (PrintApproximation round64 (affine (1 : ℚ) 0) (round64 (1 / 10)) (round64 (2 / 10))
      (round64 (3 / 10))).out.length = 3 ∧
    (PrintApproximation round64 (affine (1 : ℚ) 0) (round64 (1 / 10)) (round64 (2 / 10))
      (round64 (3 / 10))).calls.length = 5 := by
  decide!

/-- Without rounding the divisor of interpolate vanishes on the initial triple of every
affine function, whatever the abscissas: the vertex is not finite and the run ends in the
state in which the loop was entered, with the row of index 0 alone and the function called
at the three initial abscissas only.  This is what the rounded run of the code fails to
reproduce. -/
theorem affine_halts_at_start {α : Type} [LinearOrderedField α] (m c x1 x2 x3 : α) :
    denominator id (initRun (affine m c) x1 x2 x3).w = some 0 ∧
    interpolate id (initRun (affine m c) x1 x2 x3).w = none ∧
    isfinite (interpolate id (initRun (affine m c) x1 x2 x3).w) = false ∧
    PrintApproximation id (affine m c) x1 x2 x3 = initRun (affine m c) x1 x2 x3 ∧
    (PrintApproximation id (affine m c) x1 x2 x3).w =
      sample (affine m c) (ord3 x1 x2 x3).1 (ord3 x1 x2 x3).2.1 (ord3 x1 x2 x3).2.2 ∧
    (PrintApproximation id (affine m c) x1 x2 x3).out =
      [{ i := 0, x1 := (ord3 x1 x2 x3).1, x2 := (ord3 x1 x2 x3).2.1,
         x3 := (ord3 x1 x2 x3).2.2 }] := by
  have hw : (initRun (affine m c) x1 x2 x3).w =
      sample (affine m c) (ord3 x1 x2 x3).1 (ord3 x1 x2 x3).2.1 (ord3 x1 x2 x3).2.2 := rfl
  have hi : interpolate id (initRun (affine m c) x1 x2 x3).w = none := by
    rw [hw]; exact interpolate_sample_affine m c _ _ _
  have hP : PrintApproximation id (affine m c) x1 x2 x3 = initRun (affine m c) x1 x2 x3 :=
    loop_stop _ _ _ _ _ hi
  refine ⟨?_, hi, ?_, hP, ?_, ?_⟩
  · rw [hw]
    unfold sample
    rw [denominator_evaluated, affine_denominator]
  · rw [hi]; rfl
  · rw [hP, hw]
  · rw [hP]; rfl

/-- C8: ord3 returns an ascending triple, for all values of a linear order. -/
theorem ord3_ascending {α : Type} [LinearOrder α] (x y z : α) :
    (ord3 x y z).1 ≤ (ord3 x y z).2.1 ∧ (ord3 x y z).2.1 ≤ (ord3 x y z).2.2 := by
  unfold ord3
  by_cases a : x > y
  · simp only [a, if_true, gt_iff_lt, lt_self_iff_false, if_false]
    by_cases c : y > z
    · simp only [c, if_true, le_refl, and_self]
    · simp only [c, if_false]
      exact ⟨not_lt.mp c, le_refl z⟩
  · simp only [a, if_false]
    by_cases b : y > z
    · simp only [b, if_true]
      by_cases c : x > z
      · simp only [c, if_true, le_refl, and_true]
        exact le_of_lt b
      · simp only [c, if_false]
        exact ⟨not_lt.mp c, le_of_lt b⟩
    · simp only [b, if_false, a]
      exact ⟨not_lt.mp a, not_lt.mp b⟩

/-- C9 fails on the code: `ord3 2 1 3` is `(1, 3, 3)`, which is not a rearrangement of
`2, 1, 3` (the first assignment `x, y = y, z` overwrites `x` and copies `z`), and the
initial row of a run started at `2, 1, 3` shows the abscissas `1, 3, 3`. -/
theorem ord3_loses_value :
    ord3 (2 : Int) 1 3 = (1, 3, 3) ∧
    ¬ List.Perm [(ord3 (2 : Int) 1 3).1, (ord3 (2 : Int) 1 3).2.1, (ord3 (2 : Int) 1 3).2.2]
      [2, 1, 3] ∧
    (initRun (fun x : Int => x * x) 2 1 3).out = [{ i := 0, x1 := 1, x2 := 3, x3 := 3 }] := by
  decide

/-- C10: ord3 returns an ascending input unchanged, ties included, so a run started at
ascending abscissas writes them as the row of index 0, the first row of its output. -/
theorem ord3_sorted_unchanged {α : Type} [LinearOrderedField α] (rnd : α → α) (fn : α → α)
    (x y z : α)
    (hxy : x ≤ y) (hyz : y ≤ z) :
    ord3 x y z = (x, y, z) ∧
    (initRun fn x y z).out = [{ i := 0, x1 := x, x2 := y, x3 := z }] ∧
    (PrintApproximation rnd fn x y z).out.head? = some { i := 0, x1 := x, x2 := y, x3 := z } := by
  have h : ord3 x y z = (x, y, z) := ord3_of_sorted x y z hxy hyz
  have hi : (initRun fn x y z).out = [{ i := 0, x1 := x, x2 := y, x3 := z }] := by
    unfold initRun
    rw [h]
    rfl
  refine ⟨h, hi, ?_⟩
  obtain ⟨l, hl⟩ := loop_out_prefix rnd fn 101 1 (initRun fn x y z)
  unfold PrintApproximation
  rw [hl, hi]
  rfl

theorem ord3_sorted_unchanged_witness :
    ord3 (0 : ℚ) 1 4 = (0, 1, 4) ∧
    (initRun (fun x : ℚ => x * x / 10) 0 1 4).out = [{ i := 0, x1 := 0, x2 := 1, x3 := 4 }] ∧
    (PrintApproximation id (fun x : ℚ => x * x / 10) 0 1 4).out.head?
      = some { i := 0, x1 := 0, x2 := 1, x3 := 4 } :=
  ord3_sorted_unchanged id (fun x : ℚ => x * x / 10) 0 1 4 (by norm_num) (by norm_num)

/-- C11: the loop of PrintApproximation stops by itself (more fuel than 101 tests of its
condition changes nothing) after at most 100 iterations and 101 rows, for every rounding,
function and abscissas; and when each of the 100 vertices interpolated in turn is finite,
it performs exactly 100 iterations and writes exactly the 101 rows of index 0 to 100. -/
theorem cap_termination {α : Type} [LinearOrderedField α] (rnd : α → α) (fn : α → α)
    (a b c : α) :
    (∀ fuel, 101 ≤ fuel →
      loop rnd fn fuel 1 (initRun fn a b c) = PrintApproximation rnd fn a b c) ∧
    (PrintApproximation rnd fn a b c).out.length ≤ 101 ∧
    (PrintApproximation rnd fn a b c).calls.length ≤ 3 + 100 ∧
    ((∀ k < 100, interpolate rnd (tripleAfter rnd fn k (initRun fn a b c).w) ≠ none) →
      (PrintApproximation rnd fn a b c).out.length = 101 ∧
      (PrintApproximation rnd fn a b c).calls.length = 3 + 100 ∧
      (PrintApproximation rnd fn a b c).out.map Row.i = List.range 101) := by
  have hP := PrintApproximation_eq rnd fn a b c
  have hle := protocol_length_le rnd fn 100 (initRun fn a b c).w
  refine ⟨?_, ?_, ?_, ?_⟩
  · intro fuel hf
    unfold PrintApproximation
    rw [loop_eq_protocol, loop_eq_protocol]
    have h1 : min fuel (101 - 1) = 100 := by omega
    rw [h1]
    rfl
  · rw [hP]
    simp only [List.length_cons, rowsFrom_length]
    omega
  · rw [hP]
    simp only [List.length_append, List.length_cons, List.length_nil, List.length_map]
    omega
  · intro h
    have hfull := protocol_full rnd fn 100 (initRun fn a b c).w h
    rw [hP]
    refine ⟨?_, ?_, ?_⟩
    · simp only [List.length_cons, rowsFrom_length, hfull]
    · simp only [List.length_append, List.length_cons, List.length_nil, List.length_map, hfull]
    · simp only [List.map_cons, rowsFrom_index, hfull]
      rfl

theorem cap_termination_witness :
    (∀ k < 100, interpolate id (tripleAfter id geo k (initRun geo 0 1 2).w) ≠ none) ∧
    (PrintApproximation id geo 0 1 2).out.length = 101 ∧
    (PrintApproximation id geo 0 1 2).calls.length = 3 + 100 ∧
    (PrintApproximation id geo 0 1 2).out.map Row.i = List.range 101 :=
  ⟨by decide!, (cap_termination id geo 0 1 2).2.2.2 (by decide!)⟩

/-- C12: the run writes the initial triple as row 0 and then one row per completed
iteration, numbered 1, 2, ... in order.  With `T k` the triple held after `k` iterations
(`T 0` the initial one; for `k ≤ 100` it is the triple of the loop cut off after `k` tests
of its condition), there is an `m ≤ 100`, the number of completed iterations, such
that the rows are those of `T 0, ..., T m`; for `k < m` the vertex of `T k` is finite and
`T (k+1)` is `T k` with that vertex squeezed in and the function stored in the reported
slot; if `m < 100` the vertex of `T m` is not finite; and the run ends with the triple
`T m`, the one last written.  So the number of rows is `1 + m`. -/
theorem stop_on_degenerate_fit {α : Type} [LinearOrderedField α] (rnd : α → α) (fn : α → α)
    (a b c : α) :
    (∀ k ≤ 100, (loop rnd fn k 1 (initRun fn a b c)).w =
      tripleAfter rnd fn k (initRun fn a b c).w) ∧
    ∃ m, m ≤ 100 ∧
      tripleAfter rnd fn 0 (initRun fn a b c).w =
        sample fn (ord3 a b c).1 (ord3 a b c).2.1 (ord3 a b c).2.2 ∧
      (PrintApproximation rnd fn a b c).out =
        (List.range (m + 1)).map
          (fun k => rowOf k (tripleAfter rnd fn k (initRun fn a b c).w)) ∧
      (PrintApproximation rnd fn a b c).out.length = 1 + m ∧
      (PrintApproximation rnd fn a b c).w = tripleAfter rnd fn m (initRun fn a b c).w ∧
      (∀ k < m, ∃ z, interpolate rnd (tripleAfter rnd fn k (initRun fn a b c).w) = some z ∧
        tripleAfter rnd fn (k + 1) (initRun fn a b c).w =
          refit fn (tripleAfter rnd fn k (initRun fn a b c).w) z) ∧
      (m < 100 → interpolate rnd (tripleAfter rnd fn m (initRun fn a b c).w) = none) := by
  have hP := PrintApproximation_eq rnd fn a b c
  refine ⟨?_, (protocol rnd fn 100 (initRun fn a b c).w).length,
    protocol_length_le rnd fn 100 _, rfl, ?_, ?_, ?_, ?_, ?_⟩
  · intro k hk
    rw [loop_w]
    congr 1
    omega
  · rw [hP]
    simp only [rowsFrom_protocol, List.range_succ_eq_map, List.map_cons, List.map_map,
      tripleAfter_zero]
    refine congrArg₂ _ rfl ?_
    apply List.map_congr_left
    intro k _
    simp [Nat.add_comm]
  · rw [hP]
    simp only [List.length_cons, rowsFrom_length]
    omega
  · rw [hP, tripleAfter_length]
    rfl
  · intro k hk
    have hne := protocol_finite_before rnd fn 100 (initRun fn a b c).w k hk
    cases hz : interpolate rnd (tripleAfter rnd fn k (initRun fn a b c).w) with
    | none => exact absurd hz hne
    | some z =>
      refine ⟨z, rfl, ?_⟩
      rw [tripleAfter_step, hz]
  · intro hm
    exact protocol_stops rnd fn 100 (initRun fn a b c).w hm

/-- C16: every triple the driver interpolates or writes (the triple held after any number
of iterations, the triple at every test of the loop condition, the final triple) has its
three y-values evaluated, each being the function at its abscissa; squeeze writes the
sentinel into the reported slot and the loop body overwrites it there with the function at
the vertex, which keeps a triple of this kind. -/
theorem sentinel_never_read {α : Type} [LinearOrderedField α] (rnd : α → α) (fn : α → α)
    (a b c : α) :
    (∀ k, sampled fn (tripleAfter rnd fn k (initRun fn a b c).w) ∧
      evaluated (tripleAfter rnd fn k (initRun fn a b c).w)) ∧
    (∀ fuel, sampled fn (loop rnd fn fuel 1 (initRun fn a b c)).w) ∧
    sampled fn (PrintApproximation rnd fn a b c).w ∧
    (∀ (i : Nat) (z : α) (s : Run α), sampled fn s.w →
      getY (squeeze s.w z).1 (squeeze s.w z).2 = nan ∧
      getY (body fn i z s).w (squeeze s.w z).2 = some (fn z) ∧
      sampled fn (body fn i z s).w) := by
  have h0 : sampled fn (initRun fn a b c).w := sampled_sample fn _ _ _
  have hk := tripleAfter_sampled rnd fn (initRun fn a b c).w h0
  refine ⟨?_, ?_, ?_, ?_⟩
  · intro k
    refine ⟨hk k, ?_⟩
    obtain ⟨h1, h2, h3⟩ := hk k
    simp [evaluated, h1, h2, h3]
  · intro fuel
    rw [loop_w]
    exact hk _
  · unfold PrintApproximation
    rw [loop_w]
    exact hk _
  · intro i z s hs
    rw [body_w_refit]
    exact ⟨(refit_getY fn s.w z).1, (refit_getY fn s.w z).2, refit_sampled fn s.w z hs⟩

/-- C18: a run that completes `k` iterations (it writes `k + 1` rows) evaluates the function
exactly `3 + k` times: first at the three abscissas returned by ord3, in slot order, then
once per iteration, at the vertex interpolated in that iteration. -/
theorem one_evaluation_per_iteration {α : Type} [LinearOrderedField α] (rnd : α → α)
    (fn : α → α) (a b c : α) :
    (PrintApproximation rnd fn a b c).calls.take 3 =
      [(ord3 a b c).1, (ord3 a b c).2.1, (ord3 a b c).2.2] ∧
    (PrintApproximation rnd fn a b c).calls.length + 1 =
      3 + (PrintApproximation rnd fn a b c).out.length ∧
    (∀ j < 100, ((PrintApproximation rnd fn a b c).calls.drop 3)[j]? =
      interpolate rnd (tripleAfter rnd fn j (initRun fn a b c).w)) ∧
    (∀ (i : Nat) (z : α) (s : Run α), (body fn i z s).calls = s.calls ++ [z]) := by
  have hP := PrintApproximation_eq rnd fn a b c
  refine ⟨?_, ?_, ?_, fun i z s => body_calls fn i z s⟩
  · rw [hP]
    simp
  · rw [hP]
    simp only [List.length_append, List.length_cons, List.length_nil, List.length_map,
      rowsFrom_length]
    omega
  · intro j hj
    rw [hP, ← protocol_vertex rnd fn 100 (initRun fn a b c).w j hj]
    simp

theorem stop_on_degenerate_fit_witness :
    (∀ k ≤ 100, (loop id (quadratic (1 : ℚ) 0 0) k 1 (initRun (quadratic (1 : ℚ) 0 0) (-1) 0 1)).w =
      tripleAfter id (quadratic (1 : ℚ) 0 0) k (initRun (quadratic (1 : ℚ) 0 0) (-1) 0 1).w) ∧
    ∃ m, m ≤ 100 ∧
      tripleAfter id (quadratic (1 : ℚ) 0 0) 0 (initRun (quadratic (1 : ℚ) 0 0) (-1) 0 1).w =
        sample (quadratic (1 : ℚ) 0 0) (ord3 (-1 : ℚ) 0 1).1 (ord3 (-1 : ℚ) 0 1).2.1
          (ord3 (-1 : ℚ) 0 1).2.2 ∧
      (PrintApproximation id (quadratic (1 : ℚ) 0 0) (-1) 0 1).out =
        (List.range (m + 1)).map (fun k => rowOf k
          (tripleAfter id (quadratic (1 : ℚ) 0 0) k (initRun (quadratic (1 : ℚ) 0 0) (-1) 0 1).w)) ∧
      (PrintApproximation id (quadratic (1 : ℚ) 0 0) (-1) 0 1).out.length = 1 + m ∧
      (PrintApproximation id (quadratic (1 : ℚ) 0 0) (-1) 0 1).w =
        tripleAfter id (quadratic (1 : ℚ) 0 0) m (initRun (quadratic (1 : ℚ) 0 0) (-1) 0 1).w ∧
      (∀ k < m, ∃ z,
        interpolate id (tripleAfter id (quadratic (1 : ℚ) 0 0) k
          (initRun (quadratic (1 : ℚ) 0 0) (-1) 0 1).w) = some z ∧
        tripleAfter id (quadratic (1 : ℚ) 0 0) (k + 1) (initRun (quadratic (1 : ℚ) 0 0) (-1) 0 1).w =
          refit (quadratic (1 : ℚ) 0 0)
            (tripleAfter id (quadratic (1 : ℚ) 0 0) k
              (initRun (quadratic (1 : ℚ) 0 0) (-1) 0 1).w) z) ∧
      (m < 100 → interpolate id (tripleAfter id (quadratic (1 : ℚ) 0 0) m
        (initRun (quadratic (1 : ℚ) 0 0) (-1) 0 1).w) = none) :=
  stop_on_degenerate_fit id (quadratic (1 : ℚ) 0 0) (-1) 0 1

theorem sentinel_never_read_witness :
    sampled (quadratic (1 : ℚ) 0 0)
      ({ w := sample (quadratic (1 : ℚ) 0 0) 0 1 4, out := [], calls := [] } : Run ℚ).w ∧
    getY (squeeze (sample (quadratic (1 : ℚ) 0 0) 0 1 4) 2).1
      (squeeze (sample (quadratic (1 : ℚ) 0 0) 0 1 4) 2).2 = nan ∧
    getY (body (quadratic (1 : ℚ) 0 0) 1 2
      { w := sample (quadratic (1 : ℚ) 0 0) 0 1 4, out := [], calls := [] }).w
      (squeeze (sample (quadratic (1 : ℚ) 0 0) 0 1 4) 2).2 = some (quadratic (1 : ℚ) 0 0 2) ∧
    sampled (quadratic (1 : ℚ) 0 0) (body (quadratic (1 : ℚ) 0 0) 1 2
      { w := sample (quadratic (1 : ℚ) 0 0) 0 1 4, out := [], calls := [] }).w :=
  ⟨⟨rfl, rfl, rfl⟩,
   (sentinel_never_read id (quadratic (1 : ℚ) 0 0) 0 1 4).2.2.2 1 2
     { w := sample (quadratic (1 : ℚ) 0 0) 0 1 4, out := [], calls := [] } ⟨rfl, rfl, rfl⟩⟩

theorem one_evaluation_per_iteration_witness :
    ((PrintApproximation id (quadratic (1 : ℚ) 0 0) (-1) 0 1).calls.drop 3)[0]? =
      interpolate id (tripleAfter id (quadratic (1 : ℚ) 0 0) 0
        (initRun (quadratic (1 : ℚ) 0 0) (-1) 0 1).w) :=
  (one_evaluation_per_iteration id (quadratic (1 : ℚ) 0 0) (-1) 0 1).2.2.1 0 (by decide)

/-- C13: in exact arithmetic, replacing every y-value `y` of a triple by `s*y + t` with `s`
non-zero (by `-y` in particular) leaves the result of interpolate unchanged; the divisor
is multiplied by `s`, so it is zero after the change exactly when it was before. -/
theorem interpolate_min_max_agnostic {α : Type} [LinearOrderedField α] (w : knownSet α)
    (s t : α) (hs : s ≠ 0) :
    interpolate id (mapY (fun y => -y) w) = interpolate id w ∧
    interpolate id (mapY (fun y => s * y + t) w) = interpolate id w ∧
    denominator id (mapY (fun y => s * y + t) w) = (denominator id w).map (fun d => s * d) ∧
    (denominator id (mapY (fun y => s * y + t) w) = some 0 ↔ denominator id w = some 0) := by
  obtain ⟨x1, y1, x2, y2, x3, y3⟩ := w
  cases y1 with
  | none =>
    cases y2 <;> cases y3 <;>
      simp [interpolate, denominator, mapY, fmul, fsub, fadd, fdiv]
  | some y1 =>
    cases y2 with
    | none =>
      cases y3 <;> simp [interpolate, denominator, mapY, fmul, fsub, fadd, fdiv]
    | some y2 =>
      cases y3 with
      | none => simp [interpolate, denominator, mapY, fmul, fsub, fadd, fdiv]
      | some y3 =>
        have hd : denominator id (points x1 (s * y1 + t) x2 (s * y2 + t) x3 (s * y3 + t)) =
            some (s * (x1 * (y2 - y3) + x2 * (y3 - y1) + x3 * (y1 - y2))) := by
          rw [denominator_points]
          congr 1
          ring
        refine ⟨?_, interpolate_rescale_points x1 y1 x2 y2 x3 y3 s t hs, ?_, ?_⟩
        · have h := interpolate_rescale_points x1 y1 x2 y2 x3 y3 (-1) 0 (by norm_num)
          have e : mapY (fun y => -y) (points x1 y1 x2 y2 x3 y3) =
              points x1 (-1 * y1 + 0) x2 (-1 * y2 + 0) x3 (-1 * y3 + 0) := by
            simp [mapY, points]
          exact e ▸ h
        · exact hd
        · constructor
          · intro h
            have h2 := hd.symm.trans h
            have h3 : s * (x1 * (y2 - y3) + x2 * (y3 - y1) + x3 * (y1 - y2)) = 0 :=
              Option.some.inj h2
            rcases mul_eq_zero.mp h3 with h4 | h4
            · exact absurd h4 hs
            · exact (denominator_points x1 y1 x2 y2 x3 y3).trans (congrArg some h4)
          · intro h
            have h2 := (denominator_points x1 y1 x2 y2 x3 y3).symm.trans h
            have h3 : x1 * (y2 - y3) + x2 * (y3 - y1) + x3 * (y1 - y2) = 0 :=
              Option.some.inj h2
            exact hd.trans (by rw [h3, mul_zero])

theorem interpolate_min_max_agnostic_witness :
    interpolate id (mapY (fun y => -y) (points (0 : ℚ) 3 1 2 4 11)) =
      interpolate id (points (0 : ℚ) 3 1 2 4 11) ∧
    interpolate id (mapY (fun y => -2 * y + 7) (points (0 : ℚ) 3 1 2 4 11)) =
      interpolate id (points (0 : ℚ) 3 1 2 4 11) :=
  ⟨(interpolate_min_max_agnostic (points (0 : ℚ) 3 1 2 4 11) (-2) 7 (by norm_num)).1,
   (interpolate_min_max_agnostic (points (0 : ℚ) 3 1 2 4 11) (-2) 7 (by norm_num)).2.1⟩

/-- C14: the code breaks the claim, which is the doc comment of interpolate.  With the
rounding of `float64` no quadratic with a non-zero leading coefficient passes through the
collinear points `(0.1,0.1), (0.2,0.2), (0.3,0.3)`, the initial triple of a run of
`f(x) = x`, yet interpolate returns the finite value `-2305843009213693/8`.  And no
quadratic passes through `(0,0), (0,1), (1,0)`, two points with the same abscissa, yet the
divisor is `-1` and the result `1/2` is finite, with and without rounding. -/
theorem interpolate_misses_non_interpolable :
    (¬ ∃ p q r : ℚ, p ≠ 0 ∧ sampled (quadratic p q r) (points 0 0 0 1 1 0)) ∧
    denominator id (points (0 : ℚ) 0 0 1 1 0) = some (-1) ∧
    interpolate id (points (0 : ℚ) 0 0 1 1 0) = some (1 / 2) ∧
    interpolate round64 (points (0 : ℚ) 0 0 1 1 0) = some (1 / 2) ∧
    (¬ ∃ p q r : ℚ, p ≠ 0 ∧ sampled (quadratic p q r)
      (points (round64 (1 / 10)) (round64 (1 / 10)) (round64 (2 / 10)) (round64 (2 / 10))
        (round64 (3 / 10)) (round64 (3 / 10)))) ∧
    interpolate round64
      (points (round64 (1 / 10)) (round64 (1 / 10)) (round64 (2 / 10)) (round64 (2 / 10))
        (round64 (3 / 10)) (round64 (3 / 10))) = some (-2305843009213693 / 8) := by
  refine ⟨?_, by decide!, by decide!, by decide!, ?_, by decide!⟩
  · rintro ⟨p, q, r, _, hs⟩
    obtain ⟨e1, e2, _⟩ := sampled_points _ _ _ _ _ _ _ hs
    exact zero_ne_one (e1.trans e2.symm)
  · exact no_quadratic_of_divisor_zero _ _ _ _ _ _ (by decide!) (by decide!) (by decide!)
      (by ring)

/-- Without rounding, for three points in which equal abscissas carry equal y-values and
through which no quadratic `p*x^2 + q*x + r` with `p` non-zero passes, the divisor of
interpolate is zero and interpolate returns a non-finite value: what the doc comment
promises holds for the exact formula on samples of a function. -/
theorem interpolate_signals_non_interpolable {α : Type} [LinearOrderedField α]
    (x1 y1 x2 y2 x3 y3 : α)
    (h12 : x1 = x2 → y1 = y2) (h13 : x1 = x3 → y1 = y3) (h23 : x2 = x3 → y2 = y3)
    (hno : ¬ ∃ p q r : α, p ≠ 0 ∧ sampled (quadratic p q r) (points x1 y1 x2 y2 x3 y3)) :
    denominator id (points x1 y1 x2 y2 x3 y3) = some 0 ∧
    interpolate id (points x1 y1 x2 y2 x3 y3) = none ∧
    isfinite (interpolate id (points x1 y1 x2 y2 x3 y3)) = false := by
  have hd : x1 * (y2 - y3) + x2 * (y3 - y1) + x3 * (y1 - y2) = 0 := by
    by_contra hd
    have n12 : x1 ≠ x2 := by
      intro h
      apply hd
      rw [h12 h, h]
      ring
    have n13 : x1 ≠ x3 := by
      intro h
      apply hd
      rw [h13 h, h]
      ring
    have n23 : x2 ≠ x3 := by
      intro h
      apply hd
      rw [h23 h, h]
      ring
    exact hno (exists_quadratic_of_divisor_ne_zero x1 y1 x2 y2 x3 y3 n12 n13 n23 hd)
  have hi : interpolate id (points x1 y1 x2 y2 x3 y3) = none := by
    rw [interpolate_points, if_pos hd]
  refine ⟨?_, hi, ?_⟩
  · rw [denominator_points, hd]
  · rw [hi]
    rfl

theorem interpolate_signals_non_interpolable_witness :
    denominator id (points (0 : ℚ) 1 1 3 2 5) = some 0 ∧
    interpolate id (points (0 : ℚ) 1 1 3 2 5) = none ∧
    isfinite (interpolate id (points (0 : ℚ) 1 1 3 2 5)) = false :=
  interpolate_signals_non_interpolable (0 : ℚ) 1 1 3 2 5 (by norm_num) (by norm_num)
    (by norm_num)
    (no_quadratic_of_divisor_zero (0 : ℚ) 1 1 3 2 5 (by norm_num) (by norm_num) (by norm_num)
      (by norm_num))

/-- C15, as stated, fails: squeezing `9` into the triple at `0, 10, 11` drops the endpoint
`11`, at distance 2 from the candidate, and keeps the endpoint `0`, at distance 9. -/
theorem squeeze_drops_nearer_endpoint :
    sorted (sample (quadratic (1 : ℚ) 0 0) 0 10 11) ∧
    others (squeeze (sample (quadratic (1 : ℚ) 0 0) 0 10 11) 9).1
      (squeeze (sample (quadratic (1 : ℚ) 0 0) 0 10 11) 9).2 =
      [((0 : ℚ), some (quadratic 1 0 0 0)), (10, some (quadratic 1 0 0 10))] ∧
    ¬ (|(11 : ℚ) - 9| ≥ |(0 : ℚ) - 9|) := by
  decide!

/-- C15, amended: on a sorted triple squeeze drops an endpoint, the third sample when the
candidate is at most `x2` and the first one when it is greater than `x2`; the dropped
endpoint is at least as far from the candidate as the middle abscissa `x2`, and at least
as far as the kept endpoint when the candidate is at most `x1` or greater than `x3`. -/
theorem squeeze_drops_endpoint {α : Type} [LinearOrderedField α] (w : knownSet α) (x : α)
    (h : sorted w) :
    (x ≤ w.x2 →
      others (squeeze w x).1 (squeeze w x).2 = [(w.x1, w.y1), (w.x2, w.y2)] ∧
      |w.x3 - x| ≥ |w.x2 - x| ∧ (x ≤ w.x1 → |w.x3 - x| ≥ |w.x1 - x|)) ∧
    (w.x2 < x →
      others (squeeze w x).1 (squeeze w x).2 = [(w.x2, w.y2), (w.x3, w.y3)] ∧
      |w.x1 - x| ≥ |w.x2 - x| ∧ (w.x3 < x → |w.x1 - x| ≥ |w.x3 - x|)) := by
  have ho := squeeze_others w x h
  obtain ⟨h12, h23⟩ := h
  constructor
  · intro hx
    rw [if_pos hx] at ho
    refine ⟨ho, ?_, ?_⟩
    · rw [abs_of_nonneg (by linarith : (0 : α) ≤ w.x3 - x),
        abs_of_nonneg (by linarith : (0 : α) ≤ w.x2 - x)]
      linarith
    · intro hx1
      rw [abs_of_nonneg (by linarith : (0 : α) ≤ w.x3 - x),
        abs_of_nonneg (by linarith : (0 : α) ≤ w.x1 - x)]
      linarith
  · intro hx
    rw [if_neg (not_le.mpr hx)] at ho
    refine ⟨ho, ?_, ?_⟩
    · rw [abs_of_nonpos (by linarith : w.x1 - x ≤ 0),
        abs_of_nonpos (by linarith : w.x2 - x ≤ 0)]
      linarith
    · intro hx3
      rw [abs_of_nonpos (by linarith : w.x1 - x ≤ 0),
        abs_of_nonpos (by linarith : w.x3 - x ≤ 0)]
      linarith

theorem squeeze_drops_endpoint_witness :
    others (squeeze (sample (quadratic (1 : ℚ) 0 0) 0 10 11) 12).1
      (squeeze (sample (quadratic (1 : ℚ) 0 0) 0 10 11) 12).2 =
      [((sample (quadratic (1 : ℚ) 0 0) 0 10 11).x2, (sample (quadratic (1 : ℚ) 0 0) 0 10 11).y2),
        ((sample (quadratic (1 : ℚ) 0 0) 0 10 11).x3,
          (sample (quadratic (1 : ℚ) 0 0) 0 10 11).y3)] ∧
    |(sample (quadratic (1 : ℚ) 0 0) 0 10 11).x1 - 12| ≥
      |(sample (quadratic (1 : ℚ) 0 0) 0 10 11).x3 - 12| :=
  ⟨((squeeze_drops_endpoint (sample (quadratic (1 : ℚ) 0 0) 0 10 11) 12 (by decide!)).2
      (by decide!)).1,
   ((squeeze_drops_endpoint (sample (quadratic (1 : ℚ) 0 0) 0 10 11) 12 (by decide!)).2
      (by decide!)).2.2 (by decide!)⟩

/-- C17: on a sorted triple the two slots of the new triple other than the reported one hold,
in slot order, the old first and second samples when the candidate is at most `x2` (the
third sample is dropped) and the old second and third samples when it is greater than `x2`
(the first sample is dropped), each abscissa with its own y-value. -/
theorem squeeze_keeps_survivors {α : Type} [LinearOrder α] (w : knownSet α) (x : α)
    (h : sorted w) :
    (x ≤ w.x2 →
      others (squeeze w x).1 (squeeze w x).2 = [(w.x1, w.y1), (w.x2, w.y2)]) ∧
    (w.x2 < x →
      others (squeeze w x).1 (squeeze w x).2 = [(w.x2, w.y2), (w.x3, w.y3)]) ∧
    (w.x2, w.y2) ∈ others (squeeze w x).1 (squeeze w x).2 := by
  have ho := squeeze_others w x h
  refine ⟨?_, ?_, ?_⟩
  · intro hx
    rw [ho, if_pos hx]
  · intro hx
    rw [ho, if_neg (not_le.mpr hx)]
  · rw [ho]
    split_ifs <;> simp

theorem squeeze_keeps_survivors_witness :
    sorted w014 ∧
    others (squeeze w014 2).1 (squeeze w014 2).2 = [(1, some 1), (4, some 16)] ∧
    others (squeeze w014 1).1 (squeeze w014 1).2 = [(0, some 0), (1, some 1)] :=
  ⟨by decide, (squeeze_keeps_survivors w014 2 (by decide)).2.1 (by decide),
    (squeeze_keeps_survivors w014 1 (by decide)).1 (by decide)⟩

/-- C19: in exact arithmetic the divisor of interpolate for three points is zero, and the
result not finite, exactly when the three points lie on one line `a*x + b*y = c` with `a`
and `b` not both zero. -/
theorem divisor_zero_iff_collinear {α : Type} [LinearOrderedField α]
    (x1 y1 x2 y2 x3 y3 : α) :
    (denominator id (points x1 y1 x2 y2 x3 y3) = some 0 ↔
      ∃ a b c : α, (a ≠ 0 ∨ b ≠ 0) ∧
        a * x1 + b * y1 = c ∧ a * x2 + b * y2 = c ∧ a * x3 + b * y3 = c) ∧
    (interpolate id (points x1 y1 x2 y2 x3 y3) = none ↔
      denominator id (points x1 y1 x2 y2 x3 y3) = some 0) := by
  have hden : denominator id (points x1 y1 x2 y2 x3 y3) = some 0 ↔
      x1 * (y2 - y3) + x2 * (y3 - y1) + x3 * (y1 - y2) = 0 := by
    rw [denominator_points]
    exact ⟨fun h => Option.some.inj h, fun h => congrArg some h⟩
  constructor
  · rw [hden]
    constructor
    · intro hd
      by_cases hA : x1 = x2 ∧ y1 = y2
      · obtain ⟨ex, ey⟩ := hA
        by_cases hB : x1 = x3 ∧ y1 = y3
        · obtain ⟨ex3, ey3⟩ := hB
          exact ⟨1, 0, x1, Or.inl one_ne_zero, by ring, by rw [← ex]; ring,
            by rw [← ex3]; ring⟩
        · refine ⟨y1 - y3, x3 - x1, (y1 - y3) * x1 + (x3 - x1) * y1, ?_, rfl, ?_, ?_⟩
          · by_contra hc
            rw [not_or, not_not, not_not] at hc
            exact hB ⟨(sub_eq_zero.mp hc.2).symm, sub_eq_zero.mp hc.1⟩
          · rw [← ex, ← ey]
          · ring
      · refine ⟨y1 - y2, x2 - x1, (y1 - y2) * x1 + (x2 - x1) * y1, ?_, rfl, ?_, ?_⟩
        · by_contra hc
          rw [not_or, not_not, not_not] at hc
          exact hA ⟨(sub_eq_zero.mp hc.2).symm, sub_eq_zero.mp hc.1⟩
        · ring
        · linear_combination hd
    · rintro ⟨a, b, c, hab, h1, h2, h3⟩
      have ha : a * (x1 * (y2 - y3) + x2 * (y3 - y1) + x3 * (y1 - y2)) = 0 := by
        linear_combination (y2 - y3) * h1 + (y3 - y1) * h2 + (y1 - y2) * h3
      have hb : b * (x1 * (y2 - y3) + x2 * (y3 - y1) + x3 * (y1 - y2)) = 0 := by
        linear_combination (x3 - x2) * h1 + (x1 - x3) * h2 + (x2 - x1) * h3
      rcases hab with h | h
      · exact (mul_eq_zero.mp ha).resolve_left h
      · exact (mul_eq_zero.mp hb).resolve_left h
  · rw [hden, interpolate_points]
    constructor
    · intro h
      by_contra hd
      rw [if_neg hd] at h
      exact Option.noConfusion h
    · intro h
      rw [if_pos h]

/-- C20: in exact arithmetic, on samples of `p*x^2 + q*x + r` with `p` non-zero from
`a < b < c` the run completes one iteration when the vertex `-q/(2p)` is one of `a, b, c`
and two iterations otherwise; the function is called after the three initial evaluations
only at `-q/(2p)`; the final triple holds `-q/(2p)` in two neighbouring slots, so its
divisor is zero and its vertex not finite. -/
theorem quadratic_run_stops {α : Type} [LinearOrderedField α] (p q r a b c : α) (hp : p ≠ 0)
    (hab : a < b) (hbc : b < c) :
    (2 ≤ (PrintApproximation id (quadratic p q r) a b c).out.length ∧
      (PrintApproximation id (quadratic p q r) a b c).out.length ≤ 3) ∧
    ((-q / (2 * p) = a ∨ -q / (2 * p) = b ∨ -q / (2 * p) = c) →
      (PrintApproximation id (quadratic p q r) a b c).out.length = 2 ∧
      (PrintApproximation id (quadratic p q r) a b c).calls = [a, b, c, -q / (2 * p)]) ∧
    ((-q / (2 * p) ≠ a ∧ -q / (2 * p) ≠ b ∧ -q / (2 * p) ≠ c) →
      (PrintApproximation id (quadratic p q r) a b c).out.length = 3 ∧
      (PrintApproximation id (quadratic p q r) a b c).calls =
        [a, b, c, -q / (2 * p), -q / (2 * p)]) ∧
    (∀ z ∈ (PrintApproximation id (quadratic p q r) a b c).calls.drop 3, z = -q / (2 * p)) ∧
    (((PrintApproximation id (quadratic p q r) a b c).w.x1 = -q / (2 * p) ∧
        (PrintApproximation id (quadratic p q r) a b c).w.x2 = -q / (2 * p)) ∨
      ((PrintApproximation id (quadratic p q r) a b c).w.x2 = -q / (2 * p) ∧
        (PrintApproximation id (quadratic p q r) a b c).w.x3 = -q / (2 * p))) ∧
    denominator id (PrintApproximation id (quadratic p q r) a b c).w = some 0 ∧
    interpolate id (PrintApproximation id (quadratic p q r) a b c).w = none := by
  obtain ⟨t1, t2, t3, hw, hdup, h1, h2⟩ := quadratic_run p q r a b c hp hab hbc
  have hcases : (PrintApproximation id (quadratic p q r) a b c).out.length = 2 ∧
        (PrintApproximation id (quadratic p q r) a b c).calls = [a, b, c, -q / (2 * p)] ∨
      (PrintApproximation id (quadratic p q r) a b c).out.length = 3 ∧
        (PrintApproximation id (quadratic p q r) a b c).calls =
          [a, b, c, -q / (2 * p), -q / (2 * p)] := by
    by_cases hv : -q / (2 * p) = a ∨ -q / (2 * p) = b ∨ -q / (2 * p) = c
    · exact Or.inl (h1 hv)
    · rw [not_or, not_or] at hv
      exact Or.inr (h2 hv)
  have hnone : interpolate id (PrintApproximation id (quadratic p q r) a b c).w = none := by
    rw [hw]
    exact interpolate_quadratic_repeated p q r _ t1 t2 t3 hp hdup
  refine ⟨?_, h1, h2, ?_, ?_, ?_, hnone⟩
  · rcases hcases with ⟨hl, _⟩ | ⟨hl, _⟩ <;> rw [hl] <;> decide
  · intro z hz
    rcases hcases with ⟨_, hc⟩ | ⟨_, hc⟩
    · rw [hc] at hz
      simpa using hz
    · rw [hc] at hz
      simpa using hz
  · rw [hw]
    exact hdup
  · rw [hw]
    have hz : (t1 - t2) * (t2 - t3) * (t3 - t1) = 0 := by
      rcases hdup with ⟨e1, e2⟩ | ⟨e2, e3⟩
      · rw [e1, e2]; ring
      · rw [e2, e3]; ring
    unfold sample
    rw [denominator_evaluated, quadratic_denominator, hz, mul_zero]

theorem quadratic_run_stops_witness :
    (PrintApproximation id (quadratic (1 : ℚ) (-2) 3) 0 2 5).out.length = 3 ∧
    (PrintApproximation id (quadratic (1 : ℚ) (-2) 3) 0 2 5).calls =
      [0, 2, 5, -(-2) / (2 * 1), -(-2) / (2 * 1)] :=
  (quadratic_run_stops (1 : ℚ) (-2) 3 0 2 5 (by norm_num) (by norm_num) (by norm_num)).2.2.1
    ⟨by norm_num, by norm_num, by norm_num⟩

end SPI
